import Mathlib

/-!
# dnsmasq service reactor (src/dnsmasq.c)

A shallow embedding of the reactor in `main` and of `sig_handler`:
the static signal flags, the flag drain at the top of the loop, the
debounced maintenance block with the resolver-file watcher, and the
handling of one accepted TCP connection.

Conventions.
* C `int` flags are `Int`; a C condition `if (x)` is `x ≠ 0`.
* `time_t` is `Int` (whole seconds).  `difftime a b` is the difference
  in seconds; the source compares it with `1.0` and `0.0`, which on
  whole seconds are the integer comparisons `> 1` and `> 0`.
* A linked list (`struct resolvc *`, `struct iname *`) is a `List`;
  `NULL` is `[]`.
* Constants and helpers declared in dnsmasq.h / config.h / util.c, which
  are not part of this file, are fields of `Consts`.
-/

namespace Dnsmasq

/-! ## Constants and data -/

/-- Address of a socket (`union mysockaddr`): IPv4 or IPv6. -/
inductive Mysockaddr where
  | in4 (sin_port : Nat) (sin_addr : Nat)
  | in6 (sin6_port : Nat) (sin6_flowinfo : Nat) (sin6_addr : Nat)
  deriving DecidableEq, Repr

/-- Constants, build switches and helpers that dnsmasq.c takes from
dnsmasq.h, config.h and util.c. -/
structure Consts where
  OPT_NOWILD : Nat
  OPT_DEBUG : Nat
  OPT_NO_POLL : Nat
  OPT_ETHERS : Nat
  OPT_LOG : Nat
  MAX_PROCS : Int
  HAVE_IPV6 : Bool
  HAVE_BROKEN_RTC : Bool
  HAVE_ISC_READER : Bool
  sockaddr_isequal : Mysockaddr → Mysockaddr → Bool
  /-- Result of `check_servers(reload_servers(name, .., servers, ..), ..)`. -/
  reload_servers : String → Nat → Nat

/-- The C test `options & FLAG`. -/
def hasOpt (options flag : Nat) : Bool := (options &&& flag) != 0

/-- One entry of the resolver-file list (`struct resolvc`). -/
structure Resolvc where
  is_default : Int
  logged : Int
  name : String
  deriving DecidableEq, Repr

/-- One entry of an interface list (`struct iname`). -/
structure Iname where
  name : Option String
  addr : Mysockaddr
  used : Int
  isloop : Int
  deriving DecidableEq, Repr

/-- Observable actions of the reactor, in the order they happen. -/
inductive Event where
  | cache_reload
  | dhcp_read_ethers
  | dhcp_update_configs
  | lease_update_from_configs
  | lease_update_file (force : Int)
  | lease_update_dns
  | rebuild (name : String)
  | dump_cache
  | alarm
  | select
  | load_dhcp
  | warn_access (name : String)
  | reply_query
  | dhcp_packet
  | receive_query
  | close_confd
  | fork (result : Int)
  | tcp_request
  | proc_exit (code : Int)
  | log_sigterm
  | close_leasefd
  deriving DecidableEq, Repr

/-- The statics of dnsmasq.c and the locals of `main` the loop works on. -/
structure MainState where
  sigterm : Int
  sighup : Int
  sigusr1 : Int
  sigalarm : Int
  num_kids : Int
  in_child : Int
  options : Nat
  first_loop : Int
  resolv_changed : Int
  now : Int
  last : Int
  resolv : List Resolvc
  servers : Nat
  last_server : Option Nat
  dhcp : Bool
  lease_file : Bool
  leasefd : Int
  if_names : List Iname
  if_addrs : List Iname
  if_except : List Iname
  deriving DecidableEq, Repr

/-- What a piece of the program leaves behind: the process goes on in
state `s`, or it has ended with an exit status. -/
inductive Outcome where
  | cont (s : MainState) (trace : List Event)
  | ended (code : Int) (trace : List Event)
  deriving DecidableEq, Repr

/-! ## sig_handler (lines 19-44) -/

/-- Signals the handler is installed for. -/
inductive Signal where
  | SIGTERM | SIGHUP | SIGUSR1 | SIGALRM | SIGCHLD
  deriving DecidableEq, Repr

/-- The handler `sig_handler(sig)`.  For SIGCHLD, `reaped` is the number
of times `waitpid(-1, &stat, WNOHANG)` returns a pid before it returns
0 or -1; each such return runs `num_kids--`. -/
def sig_handler (s : MainState) (sig : Signal) (reaped : Nat) : Outcome :=
  match sig with
  | .SIGTERM => .cont { s with sigterm := 1 } []
  | .SIGHUP => .cont { s with sighup := 1 } []
  | .SIGUSR1 => .cont { s with sigusr1 := 1 } []
  | .SIGALRM =>
      if s.in_child ≠ 0 then .ended 0 [.proc_exit 0]
      else .cont { s with sigalarm := 1 } []
  | .SIGCHLD => .cont { s with num_kids := s.num_kids - reaped } []

/-! ## One accepted TCP connection (lines 524-608) -/

/-- Line 540: under HAVE_IPV6 the flow label of an IPv6 local address is
cleared before it is compared. -/
def clear_flowinfo (c : Consts) (a : Mysockaddr) : Mysockaddr :=
  match a with
  | .in6 p _ addr => if c.HAVE_IPV6 then .in6 p 0 addr else a
  | .in4 _ _ => a

/-- Lines 542-544: `for (match = 1, tmp = if_except; tmp; ..) if (isequal) match = 0`. -/
def except_scan (c : Consts) (tcp_addr : Mysockaddr) (if_except : List Iname) : Int :=
  if_except.foldl (fun m tmp => if c.sockaddr_isequal tmp.addr tcp_addr then 0 else m) 1

/-- Lines 549-554: one of the two loops that set `match = 1` on an equal address. -/
def allow_scan (c : Consts) (tcp_addr : Mysockaddr) (l : List Iname) (m : Int) : Int :=
  l.foldl (fun m tmp => if c.sockaddr_isequal tmp.addr tcp_addr then 1 else m) m

/-- Lines 542-555: the allow-list check against the local address. -/
def allow_check (c : Consts) (tcp_addr : Mysockaddr)
    (if_except if_names if_addrs : List Iname) : Int :=
  let m := except_scan c tcp_addr if_except
  if m ≠ 0 ∧ (if_names ≠ [] ∨ if_addrs ≠ []) then
    allow_scan c tcp_addr if_addrs (allow_scan c tcp_addr if_names 0)
  else m

/-- Lines 526-557: the value of `match` for an accepted connection.
`getsockname` is `none` when the call returned -1. -/
def tcp_match (c : Consts) (s : MainState) (getsockname : Option Mysockaddr) : Int :=
  if ¬ hasOpt s.options c.OPT_NOWILD then
    match getsockname with
    | some a => allow_check c (clear_flowinfo c a) s.if_except s.if_names s.if_addrs
    | none => 1
  else 1

/-- Lines 524-608 for `confd != -1`.  `fork` is what `fork()` returns if it
is called: the child pid (> 0) in the parent, 0 in the child, -1 on failure. -/
def tcp_connection (c : Consts) (s : MainState) (getsockname : Option Mysockaddr)
    (fork : Int) : Outcome :=
  let m := tcp_match c s getsockname
  if m = 0 ∨ s.num_kids ≥ c.MAX_PROCS then
    .cont s [.close_confd]
  else if ¬ hasOpt s.options c.OPT_DEBUG ∧ fork ≠ 0 then
    .cont { s with num_kids := s.num_kids + 1 } [.fork fork, .close_confd]
  else if ¬ hasOpt s.options c.OPT_DEBUG then
    .ended 0 [.fork fork, .alarm, .tcp_request, .proc_exit 0]
  else
    .cont s [.tcp_request, .close_confd]

/-! ## Flag drain (lines 364-401) -/

/-- Lines 364-383: `if (sighup) { .. sighup = 0; }`. -/
def drain_sighup (c : Consts) (s : MainState) : MainState × List Event :=
  if s.sighup ≠ 0 then
    let tr_dhcp : List Event :=
      if s.dhcp then
        (if hasOpt s.options c.OPT_ETHERS then [Event.dhcp_read_ethers] else []) ++
          [.dhcp_update_configs, .lease_update_from_configs, .lease_update_file 0,
           .lease_update_dns]
      else []
    match s.resolv with
    | r :: _ =>
        if hasOpt s.options c.OPT_NO_POLL then
          ({ s with servers := c.reload_servers r.name s.servers, last_server := none,
                    sighup := 0 },
           [Event.cache_reload] ++ tr_dhcp ++ [.rebuild r.name])
        else ({ s with sighup := 0 }, [Event.cache_reload] ++ tr_dhcp)
    | [] => ({ s with sighup := 0 }, [Event.cache_reload] ++ tr_dhcp)
  else (s, [])

/-- Lines 385-389: `if (sigusr1) { dump_cache(..); sigusr1 = 0; }`. -/
def drain_sigusr1 (s : MainState) : MainState × List Event :=
  if s.sigusr1 ≠ 0 then ({ s with sigusr1 := 0 }, [.dump_cache]) else (s, [])

/-- Lines 391-401: `if (sigalarm) { if (dhcp) {..} sigalarm = 0; }`. -/
def drain_sigalarm (c : Consts) (s : MainState) : MainState × List Event :=
  if s.sigalarm ≠ 0 then
    ({ s with sigalarm := 0 },
     if s.dhcp then
       [Event.lease_update_file 1] ++ (if c.HAVE_BROKEN_RTC then [Event.alarm] else [])
     else [])
  else (s, [])

/-- Lines 364-401: the three flags are looked at in source order. -/
def flag_drain (c : Consts) (s : MainState) : MainState × List Event :=
  let r1 := drain_sighup c s
  let r2 := drain_sigusr1 r1.1
  let r3 := drain_sigalarm c r2.1
  (r3.1, r1.2 ++ r2.2 ++ r3.2)

/-! ## Debounced maintenance and the resolver-file watcher (lines 449-497) -/

/-- The C library `difftime(a, b)` on whole seconds. -/
def difftime (a b : Int) : Int := a - b

/-- Result of the scan loop of lines 469-487. -/
structure Scan where
  resolv : List Resolvc
  last_change : Int
  latest : Option Nat
  trace : List Event
  deriving DecidableEq, Repr

/-- Lines 469-487: `while (res) { .. res = res->next; }`.  `stat name` is
`none` when `stat()` returns -1 and `some st_mtime` otherwise; `idx` is the
position of `res` in the list, so `latest` is the position of the entry
the pointer `latest` refers to. -/
def scan (stat : String → Option Int) :
    List Resolvc → Nat → Int → Option Nat → Scan
  | [], _, last_change, latest => ⟨[], last_change, latest, []⟩
  | res :: rest, idx, last_change, latest =>
      match stat res.name with
      | none =>
          let r := scan stat rest (idx + 1) last_change latest
          { r with
            resolv := { res with logged := 1 } :: r.resolv
            trace := (if res.logged = 0 then [Event.warn_access res.name] else []) ++ r.trace }
      | some st_mtime =>
          let r :=
            if difftime st_mtime last_change > 0 then
              scan stat rest (idx + 1) st_mtime (some idx)
            else scan stat rest (idx + 1) last_change latest
          { r with resolv := { res with logged := 0 } :: r.resolv }

/-- The name `latest->name` of the entry at position `idx`. -/
def resolv_name (resolv : List Resolvc) (idx : Nat) : String :=
  match resolv.get? idx with
  | some r => r.name
  | none => ""

/-- Lines 463-495: one poll of the resolver files. -/
def poll_resolv (c : Consts) (stat : String → Option Int) (s : MainState) :
    MainState × List Event :=
  let r := scan stat s.resolv 0 0 none
  let s1 := { s with resolv := r.resolv }
  match r.latest with
  | some idx =>
      if difftime r.last_change s.resolv_changed > 0 then
        ({ s1 with resolv_changed := r.last_change
                   servers := c.reload_servers (resolv_name s.resolv idx) s.servers
                   last_server := none },
         r.trace ++ [.rebuild (resolv_name s.resolv idx)])
      else (s1, r.trace)
  | none => (s1, r.trace)

/-- Line 452: the guard of the maintenance block. -/
def maintenance_due (s : MainState) : Bool :=
  s.last = 0 ∨ difftime s.now s.last > 1

/-- Lines 452-497, run after `now` has been refreshed. -/
def maintenance (c : Consts) (stat : String → Option Int) (s : MainState) :
    MainState × List Event :=
  if maintenance_due s then
    let s1 := { s with last := s.now }
    let tr_isc : List Event :=
      if c.HAVE_ISC_READER ∧ s.lease_file ∧ ¬ s.dhcp then [.load_dhcp] else []
    if ¬ hasOpt s.options c.OPT_NO_POLL then
      let r := poll_resolv c stat s1
      (r.1, tr_isc ++ r.2)
    else (s1, tr_isc)
  else (s, [])

/-! ## Blocking wait (lines 403-446) -/

/-- Signals are blocked except during `pselect`; the handlers of the
signals delivered there run one after the other. -/
def deliver : List (Signal × Nat) → MainState → Outcome
  | [], s => .cont s []
  | (sig, reaped) :: rest, s =>
      match sig_handler s sig reaped with
      | .cont s1 _ => deliver rest s1
      | .ended code tr => .ended code tr

/-! ## Dispatch (lines 499-610) -/

/-- What the wait and the calls made during dispatch give back for one
TCP listening socket that is readable.  `confd_ok` is `confd != -1`. -/
structure TcpIn where
  confd_ok : Bool
  getsockname : Option Mysockaddr
  fork : Int
  deriving DecidableEq, Repr

/-- Readiness of one listener: the value `receive_query` returns if the UDP
socket is readable, and the connection if the TCP socket is. -/
structure ListenerIn where
  udp : Option (Option Nat)
  tcp : Option TcpIn
  deriving DecidableEq, Repr

/-- The descriptors marked in `rset`.  `replies` holds, for every readable
upstream socket in list order, the value `reply_query` returns. -/
structure Ready where
  replies : List (Option Nat)
  dhcp_ready : Bool
  listeners : List ListenerIn
  deriving DecidableEq, Repr

/-- The set after `FD_ZERO(&rset)`. -/
def Ready.zero : Ready := ⟨[], false, []⟩

/-- Lines 499-503: the loop over `sfds`. -/
def dispatch_replies : List (Option Nat) → MainState → MainState × List Event
  | [], s => (s, [])
  | r :: rest, s =>
      let n := dispatch_replies rest { s with last_server := r }
      (n.1, Event.reply_query :: n.2)

/-- Lines 513-609: one listener. -/
def dispatch_listener (c : Consts) (l : ListenerIn) (s : MainState) : Outcome :=
  let r1 : MainState × List Event :=
    match l.udp with
    | some ls => ({ s with last_server := ls }, [.receive_query])
    | none => (s, [])
  match l.tcp with
  | some t =>
      if t.confd_ok then
        match tcp_connection c r1.1 t.getsockname t.fork with
        | .cont s2 tr => .cont s2 (r1.2 ++ tr)
        | .ended code tr => .ended code (r1.2 ++ tr)
      else .cont r1.1 r1.2
  | none => .cont r1.1 r1.2

/-- Lines 511-610: the loop over `listeners`. -/
def dispatch_listeners (c : Consts) : List ListenerIn → MainState → Outcome
  | [], s => .cont s []
  | l :: rest, s =>
      match dispatch_listener c l s with
      | .cont s1 tr1 =>
          match dispatch_listeners c rest s1 with
          | .cont s2 tr2 => .cont s2 (tr1 ++ tr2)
          | .ended code tr2 => .ended code (tr1 ++ tr2)
      | .ended code tr1 => .ended code tr1

/-- Lines 499-610. -/
def dispatch (c : Consts) (rset : Ready) (s : MainState) : Outcome :=
  let r1 := dispatch_replies rset.replies s
  let tr_dhcp : List Event := if s.dhcp ∧ rset.dhcp_ready then [.dhcp_packet] else []
  match dispatch_listeners c rset.listeners r1.1 with
  | .cont s2 tr => .cont s2 (r1.2 ++ tr_dhcp ++ tr)
  | .ended code tr => .ended code (r1.2 ++ tr_dhcp ++ tr)

/-! ## The loop (lines 360-611) and the way out (lines 613-622) -/

/-- Everything one iteration takes from outside the process. -/
structure IterIn where
  signals : List (Signal × Nat)
  select_ret : Int
  rset : Ready
  now : Int
  stat : String → Option Int

/-- Lines 403-610: the iteration after the flag drain. -/
def after_drain (c : Consts) (inp : IterIn) (s : MainState) : Outcome :=
  let waited : Outcome × Ready :=
    if s.first_loop = 0 then
      (match deliver inp.signals s with
        | .cont s1 _ => .cont s1 [.select]
        | .ended code tr => .ended code (Event.select :: tr),
       if inp.select_ret < 0 then Ready.zero else inp.rset)
    else (.cont s [], Ready.zero)
  match waited.1 with
  | .ended code tr => .ended code tr
  | .cont s1 tr1 =>
      let s2 := { s1 with first_loop := 0, now := inp.now }
      let m := maintenance c inp.stat s2
      match dispatch c waited.2 m.1 with
      | .cont s3 tr3 => .cont s3 (tr1 ++ m.2 ++ tr3)
      | .ended code tr3 => .ended code (tr1 ++ m.2 ++ tr3)

/-- Lines 362-610: the body of `while (sigterm == 0)`. -/
def iteration (c : Consts) (inp : IterIn) (s : MainState) : Outcome :=
  let d := flag_drain c s
  match after_drain c inp d.1 with
  | .cont s1 tr => .cont s1 (d.2 ++ tr)
  | .ended code tr => .ended code (d.2 ++ tr)

/-- Lines 613-622: what `main` does after the loop, before `return 0`. -/
def leave (c : Consts) (s : MainState) : List Event :=
  [Event.log_sigterm] ++
    (if c.HAVE_BROKEN_RTC ∧ s.dhcp then [Event.lease_update_file 1] else []) ++
    (if s.leasefd ≠ -1 then [Event.close_leasefd] else [])

/-- How a run of `main` from the loop head stands after the given inputs. -/
inductive Run where
  | returned (code : Int) (trace : List Event)
  | ended (code : Int) (trace : List Event)
  | waiting (s : MainState) (trace : List Event)
  deriving DecidableEq, Repr

/-- Lines 360-622: `while (sigterm == 0) { .. }` followed by the way out.
One element of `inps` is consumed per iteration. -/
def main_loop (c : Consts) : List IterIn → MainState → Run
  | [], s => if s.sigterm = 0 then .waiting s [] else .returned 0 (leave c s)
  | inp :: rest, s =>
      if s.sigterm = 0 then
        match iteration c inp s with
        | .cont s1 tr =>
            match main_loop c rest s1 with
            | .returned code tr2 => .returned code (tr ++ tr2)
            | .ended code tr2 => .ended code (tr ++ tr2)
            | .waiting s2 tr2 => .waiting s2 (tr ++ tr2)
        | .ended code tr => .ended code tr
      else .returned 0 (leave c s)

/-- The actions of a run so far. -/
def Run.trace : Run → List Event
  | .returned _ tr => tr
  | .ended _ tr => tr
  | .waiting _ tr => tr

/-- The actions of a piece of the program. -/
def Outcome.trace : Outcome → List Event
  | .cont _ tr => tr
  | .ended _ tr => tr

/-- Whether `sig` is among the signals delivered during a wait. -/
def delivered (sig : Signal) (sigs : List (Signal × Nat)) : Bool :=
  sigs.any (fun x => decide (x.1 = sig))

/-- The four flags `sig_handler` sets: sigterm, sighup, sigusr1, sigalarm. -/
def sigflags (s : MainState) : Int × Int × Int × Int :=
  (s.sigterm, s.sighup, s.sigusr1, s.sigalarm)

/-! ## Start-up values (lines 53-59, 91-100, 155-159, 357-358) -/

/-- Lines 155-159: the fall back to bound listeners when the wildcard
listeners cannot be created.  Gives `options` and `bind_fallback`. -/
def bind_options (c : Consts) (options : Nat) (wildcard_ok : Bool) : Nat × Int :=
  if ¬ hasOpt options c.OPT_NOWILD ∧ ¬ wildcard_ok then (options ||| c.OPT_NOWILD, 1)
  else (options, 0)

/-- The state in which the loop is entered for the first time. -/
def main_init (c : Consts) (options : Nat) (resolv : List Resolvc) (servers : Nat)
    (dhcp lease_file : Bool) (leasefd : Int) (now : Int)
    (if_names if_addrs if_except : List Iname) : MainState :=
  { sigterm := 0
    sighup := 1
    sigusr1 := 0
    sigalarm := if c.HAVE_BROKEN_RTC then 1 else 0
    num_kids := 0
    in_child := 0
    options := options
    first_loop := 1
    resolv_changed := 0
    now := now
    last := 0
    resolv := resolv
    servers := servers
    last_server := none
    dhcp := dhcp
    lease_file := lease_file
    leasefd := leasefd
    if_names := if_names
    if_addrs := if_addrs
    if_except := if_except }

/-! ## The TCP supervisor as a transition system -/

/-- The two things that change `num_kids`: an accepted connection is
handled (lines 524-608), or SIGCHLD is delivered and `reaped` children
are collected by `waitpid` (lines 35-43). -/
inductive SupAct where
  | conn (getsockname : Option Mysockaddr) (fork : Int)
  | sigchld (reaped : Nat)
  deriving DecidableEq, Repr

/-- One step of the supervisor on the state of the parent.  `none`: the
process is the forked child, which never returns to the loop. -/
def kids_step (c : Consts) (a : SupAct) (s : MainState) : Option MainState :=
  match a with
  | .conn g f =>
      match tcp_connection c s g f with
      | .cont s1 _ => some s1
      | .ended _ _ => none
  | .sigchld k =>
      match sig_handler s .SIGCHLD k with
      | .cont s1 _ => some s1
      | .ended _ _ => none

/-- A sequence of supervisor steps. -/
def kids_run (c : Consts) : List SupAct → MainState → Option MainState
  | [], s => some s
  | a :: rest, s =>
      match kids_step c a s with
      | some s1 => kids_run c rest s1
      | none => none

/-- The parent together with the number of worker processes that were
created by `fork` and have not been reaped yet. -/
structure Sup where
  s : MainState
  workers : Nat
  deriving DecidableEq, Repr

/-- Number of processes a trace created: `fork()` made one exactly when
it returned a pid to the parent. -/
def created : List Event → Nat
  | [] => 0
  | .fork r :: rest => (if r > 0 then 1 else 0) + created rest
  | _ :: rest => created rest

/-- One supervisor step with the worker processes counted.  `waitpid`
can only return children that exist, so SIGCHLD reaps at most `workers`. -/
def sup_step (c : Consts) (a : SupAct) (w : Sup) : Option Sup :=
  match a with
  | .conn g f =>
      match tcp_connection c w.s g f with
      | .cont s1 tr => some ⟨s1, w.workers + created tr⟩
      | .ended _ _ => none
  | .sigchld k =>
      if k ≤ w.workers then
        match sig_handler w.s .SIGCHLD k with
        | .cont s1 _ => some ⟨s1, w.workers - k⟩
        | .ended _ _ => none
      else none

/-- A sequence of supervisor steps with the worker processes counted. -/
def sup_run (c : Consts) : List SupAct → Sup → Option Sup
  | [], w => some w
  | a :: rest, w =>
      match sup_step c a w with
      | some w1 => sup_run c rest w1
      | none => none

/-! ## Sequences of clock readings -/

/-- Lines 449-497 over successive iterations: for each clock reading (with
the `stat` results of that moment) whether the maintenance block runs. -/
def maint_seq (c : Consts) : List (Int × (String → Option Int)) → MainState → List Bool
  | [], _ => []
  | (now, stat) :: rest, s =>
      maintenance_due { s with now := now } ::
        maint_seq c rest (maintenance c stat { s with now := now }).1

/-! ## Sequences of polls of the resolver files -/

/-- The state after the polls in `stats`, one `stat` result map per poll. -/
def poll_run (c : Consts) : List (String → Option Int) → MainState → MainState
  | [], s => s
  | stat :: rest, s => poll_run c rest (poll_resolv c stat s).1

/-- What each poll in `stats` does, poll by poll. -/
def poll_seq (c : Consts) : List (String → Option Int) → MainState → List (List Event)
  | [], _ => []
  | stat :: rest, s => (poll_resolv c stat s).2 :: poll_seq c rest (poll_resolv c stat s).1

/-- Number of "failed to access" warnings poll `i` writes for the file `n`. -/
def warnings (c : Consts) (stats : List (String → Option Int)) (s : MainState)
    (n : String) (i : Nat) : Nat :=
  ((poll_seq c stats s).getD i []).count (Event.warn_access n)

/-- Number of entries of the resolver list that name the file `n`. -/
def entries (l : List Resolvc) (n : String) : Nat :=
  l.countP (fun r => decide (r.name = n))

/-- Modification times of the entries `stat` can read. -/
def mtimes (stat : String → Option Int) (l : List Resolvc) : List Int :=
  l.filterMap (fun r => stat r.name)

/-! ## Concrete values used in examples -/

/-- A choice of the header constants: distinct option bits, a cap of 20
workers, and address equality for `sockaddr_isequal`. -/
def sample : Consts :=
  { OPT_NOWILD := 8192
    OPT_DEBUG := 64
    OPT_NO_POLL := 32
    OPT_ETHERS := 16384
    OPT_LOG := 4
    MAX_PROCS := 20
    HAVE_IPV6 := true
    HAVE_BROKEN_RTC := false
    HAVE_ISC_READER := false
    sockaddr_isequal := fun a b => decide (a = b)
    reload_servers := fun _ n => n + 1 }

/-- The loop entry state for `sample` with the default resolver file and
no interface lists. -/
def sample_init (options : Nat) : MainState :=
  main_init sample options [⟨1, 0, "/etc/resolv.conf"⟩] 0 false false (-1) 1000 [] [] []

/-- An interface entry with the given address. -/
def sample_iname (a : Mysockaddr) : Iname := ⟨none, a, 1, 0⟩

/-- An iteration input: nothing readable, clock at `now`, every file
unreadable. -/
def idle_input (now : Int) : IterIn :=
  { signals := [], select_ret := 0, rset := Ready.zero, now := now, stat := fun _ => none }

/-- An iteration input: the wait is interrupted by SIGHUP and SIGUSR1,
clock at `now`, every file unreadable. -/
def signal_input (now : Int) : IterIn :=
  { signals := [(.SIGHUP, 0), (.SIGUSR1, 0)], select_ret := -1, rset := Ready.zero,
    now := now, stat := fun _ => none }

/-- Results of `stat` for two files "A" and "B" with the given
modification times; every other path is unreadable. -/
def stat_ab (a b : Int) : String → Option Int :=
  fun n => if n = "A" then some a else if n = "B" then some b else none

/-- Results of `stat` when every path has the same modification time. -/
def stat_all (m : Int) : String → Option Int := fun _ => some m

/-- The loop entry state for `sample` with resolver files "A" and "B". -/
def sample_ab : MainState :=
  main_init sample 0 [⟨0, 0, "A"⟩, ⟨0, 0, "B"⟩] 0 false false (-1) 1000 [] [] []

/-- The constants of `sample` with the ISC lease-file reader compiled in. -/
def sample_isc : Consts := { sample with HAVE_ISC_READER := true }

/-! ## Theorems -/

theorem kids_step_le (c : Consts) (a : SupAct) (s s1 : MainState)
    (hs : s.num_kids ≤ c.MAX_PROCS) (h : kids_step c a s = some s1) :
    s1.num_kids ≤ c.MAX_PROCS := by
  cases a with
  | conn g f =>
      simp only [kids_step, tcp_connection] at h
      split_ifs at h with h1 h2 h3 <;>
        simp only [Option.some.injEq, reduceCtorEq] at h <;> subst h
      · exact hs
      · have hlt : s.num_kids < c.MAX_PROCS := by
          by_contra hc
          exact h1 (Or.inr (not_lt.mp hc))
        show s.num_kids + 1 ≤ c.MAX_PROCS
        omega
      · exact hs
  | sigchld k =>
      simp only [kids_step, sig_handler, Option.some.injEq] at h
      subst h
      show s.num_kids - (k : Int) ≤ c.MAX_PROCS
      omega

theorem kids_run_le (c : Consts) (acts : List SupAct) :
    ∀ (s s1 : MainState), s.num_kids ≤ c.MAX_PROCS → kids_run c acts s = some s1 →
      s1.num_kids ≤ c.MAX_PROCS := by
  induction acts with
  | nil =>
      intro s s1 hs h
      simp only [kids_run, Option.some.injEq] at h
      subst h; exact hs
  | cons a rest ih =>
      intro s s1 hs h
      simp only [kids_run] at h
      cases hstep : kids_step c a s with
      | none => rw [hstep] at h; simp at h
      | some s2 =>
          rw [hstep] at h
          exact ih s2 s1 (kids_step_le c a s s2 hs hstep) h

/-- C1 (admission cap): from `num_kids = 0`, after any sequence of
accepted connections and SIGCHLD deliveries the parent has
`num_kids ≤ MAX_PROCS`; and a connection accepted while
`num_kids ≥ MAX_PROCS` is closed, forks nothing and leaves the state,
`num_kids` included, as it was. -/
theorem admission_cap (c : Consts) (hcap : 0 ≤ c.MAX_PROCS) (s0 : MainState)
    (h0 : s0.num_kids = 0) (acts : List SupAct) (s : MainState)
    (hrun : kids_run c acts s0 = some s) :
    s.num_kids ≤ c.MAX_PROCS ∧
    ∀ (g : Option Mysockaddr) (f : Int), s.num_kids ≥ c.MAX_PROCS →
      tcp_connection c s g f = .cont s [.close_confd] ∧
      kids_step c (.conn g f) s = some s := by
  refine ⟨kids_run_le c acts s0 s (by rw [h0]; exact hcap) hrun, ?_⟩
  intro g f hfull
  have h : tcp_connection c s g f = .cont s [.close_confd] := by
    simp only [tcp_connection]
    rw [if_pos (Or.inr hfull)]
  exact ⟨h, by simp only [kids_step, h]⟩

/-- Witness for C1: twenty-one connections in a row with every fork
succeeding end with `num_kids = 20`, the cap of `sample`. -/
theorem admission_cap_witness :
    ({ sample_init 0 with num_kids := 20 } : MainState).num_kids ≤ sample.MAX_PROCS ∧
    ∀ (g : Option Mysockaddr) (f : Int),
      ({ sample_init 0 with num_kids := 20 } : MainState).num_kids ≥ sample.MAX_PROCS →
      tcp_connection sample { sample_init 0 with num_kids := 20 } g f
          = .cont { sample_init 0 with num_kids := 20 } [.close_confd] ∧
      kids_step sample (.conn g f) { sample_init 0 with num_kids := 20 }
          = some { sample_init 0 with num_kids := 20 } :=
  admission_cap sample (by decide) (sample_init 0) rfl
    (List.replicate 21 (.conn none 7)) { sample_init 0 with num_kids := 20 } (by decide)

/-- C10 (authoritative live count) at the failing input: the first
connection is accepted with `fork()` returning -1.  No worker process
exists afterwards, yet `num_kids` is 1. -/
theorem live_count_fork_failure :
    sup_run sample [.conn none (-1)] ⟨sample_init 0, 0⟩
      = some ⟨{ sample_init 0 with num_kids := 1 }, 0⟩ ∧
    tcp_connection sample (sample_init 0) none (-1)
      = .cont { sample_init 0 with num_kids := 1 } [.fork (-1), .close_confd] := by
  constructor <;> decide

/-! ### The allow-list -/

theorem foldl_flag (α : Type) (p : α → Bool) (v : Int) (l : List α) :
    ∀ m0 : Int, l.foldl (fun m t => if p t then v else m) m0 = if l.any p then v else m0 := by
  induction l with
  | nil => intro m0; simp
  | cons a rest ih =>
      intro m0
      simp only [List.foldl_cons, List.any_cons, ih]
      by_cases hp : p a = true <;> by_cases hr : rest.any p = true <;> simp [hp, hr]

theorem except_scan_eq (c : Consts) (a : Mysockaddr) (l : List Iname) :
    except_scan c a l = if l.any (fun e => c.sockaddr_isequal e.addr a) then 0 else 1 := by
  unfold except_scan
  exact foldl_flag Iname (fun e => c.sockaddr_isequal e.addr a) 0 l 1

theorem allow_scan_eq (c : Consts) (a : Mysockaddr) (l : List Iname) (m : Int) :
    allow_scan c a l m = if l.any (fun e => c.sockaddr_isequal e.addr a) then 1 else m := by
  unfold allow_scan
  exact foldl_flag Iname (fun e => c.sockaddr_isequal e.addr a) 1 l m

theorem allow_check_eq_one (c : Consts) (a : Mysockaddr) (ex na ad : List Iname) :
    allow_check c a ex na ad = 1 ↔
      (∀ e ∈ ex, c.sockaddr_isequal e.addr a = false) ∧
      ((na = [] ∧ ad = []) ∨
        ∃ e, (e ∈ na ∨ e ∈ ad) ∧ c.sockaddr_isequal e.addr a = true) := by
  simp only [allow_check, except_scan_eq, allow_scan_eq]
  by_cases hex : ex.any (fun e => c.sockaddr_isequal e.addr a) = true
  · have hno : ¬ ∀ e ∈ ex, c.sockaddr_isequal e.addr a = false := by
      intro hall
      obtain ⟨e, he, heq⟩ := List.any_eq_true.mp hex
      rw [hall e he] at heq
      exact Bool.noConfusion heq
    simp [hex, hno]
  · have hall : ∀ e ∈ ex, c.sockaddr_isequal e.addr a = false := by
      intro e he
      cases h : c.sockaddr_isequal e.addr a
      · rfl
      · exact absurd (List.any_eq_true.mpr ⟨e, he, h⟩) hex
    simp only [hex, Bool.false_eq_true, if_false, ne_eq, one_ne_zero, not_false_eq_true,
      true_and]
    by_cases hne : ¬ na = [] ∨ ¬ ad = []
    · rw [if_pos hne]
      have hemp : ¬ (na = [] ∧ ad = []) := by
        rintro ⟨h1, h2⟩
        rcases hne with h | h
        · exact h h1
        · exact h h2
      by_cases had : ad.any (fun e => c.sockaddr_isequal e.addr a) = true
      · obtain ⟨e, he, heq⟩ := List.any_eq_true.mp had
        simp only [had, if_true, true_iff]
        exact ⟨hall, Or.inr ⟨e, Or.inr he, heq⟩⟩
      · by_cases hna : na.any (fun e => c.sockaddr_isequal e.addr a) = true
        · obtain ⟨e, he, heq⟩ := List.any_eq_true.mp hna
          simp only [had, hna, if_true, Bool.false_eq_true, if_false, true_iff]
          exact ⟨hall, Or.inr ⟨e, Or.inl he, heq⟩⟩
        · simp only [had, hna, Bool.false_eq_true, if_false, zero_ne_one, false_iff]
          rintro ⟨_, h | ⟨e, he | he, heq⟩⟩
          · exact hemp h
          · exact hna (List.any_eq_true.mpr ⟨e, he, heq⟩)
          · exact had (List.any_eq_true.mpr ⟨e, he, heq⟩)
    · rw [if_neg hne]
      push_neg at hne
      simp only [true_iff]
      exact ⟨hall, Or.inl hne⟩

theorem allow_check_zero_or_one (c : Consts) (a : Mysockaddr) (ex na ad : List Iname) :
    allow_check c a ex na ad = 0 ∨ allow_check c a ex na ad = 1 := by
  simp only [allow_check, except_scan_eq, allow_scan_eq]
  split_ifs <;> simp

/-- C7 (allow-list decision): when the check is made (OPT_NOWILD clear)
and `getsockname` gave the local address, `match` is 0 or 1, and it is 1
exactly when the address (flow label cleared) equals the address of no
`if_except` entry and either `if_names` and `if_addrs` are both empty or
it equals the address of one of their entries. -/
theorem allow_list_decision (c : Consts) (s : MainState) (a : Mysockaddr)
    (hw : hasOpt s.options c.OPT_NOWILD = false) :
    (tcp_match c s (some a) = 0 ∨ tcp_match c s (some a) = 1) ∧
    (tcp_match c s (some a) = 1 ↔
      (∀ e ∈ s.if_except, c.sockaddr_isequal e.addr (clear_flowinfo c a) = false) ∧
      ((s.if_names = [] ∧ s.if_addrs = []) ∨
        ∃ e, (e ∈ s.if_names ∨ e ∈ s.if_addrs) ∧
          c.sockaddr_isequal e.addr (clear_flowinfo c a) = true)) := by
  have hm : tcp_match c s (some a)
      = allow_check c (clear_flowinfo c a) s.if_except s.if_names s.if_addrs := by
    simp [tcp_match, hw]
  rw [hm]
  exact ⟨allow_check_zero_or_one c _ _ _ _, allow_check_eq_one c _ _ _ _⟩

/-- Witness for C7: wildcard binding, 10.0.0.1 excluded, 192.168.1.1 listed. -/
theorem allow_list_decision_witness :
    (tcp_match sample { sample_init 0 with
          if_except := [sample_iname (.in4 53 167772161)]
          if_addrs := [sample_iname (.in4 53 3232235777)] } (some (.in4 53 3232235777)) = 0 ∨
     tcp_match sample { sample_init 0 with
          if_except := [sample_iname (.in4 53 167772161)]
          if_addrs := [sample_iname (.in4 53 3232235777)] } (some (.in4 53 3232235777)) = 1) ∧
    (tcp_match sample { sample_init 0 with
          if_except := [sample_iname (.in4 53 167772161)]
          if_addrs := [sample_iname (.in4 53 3232235777)] } (some (.in4 53 3232235777)) = 1 ↔
      (∀ e ∈ [sample_iname (.in4 53 167772161)],
          sample.sockaddr_isequal e.addr (clear_flowinfo sample (.in4 53 3232235777)) = false) ∧
      (((([] : List Iname) = [] ∧ [sample_iname (.in4 53 3232235777)] = [])) ∨
        ∃ e, (e ∈ ([] : List Iname) ∨ e ∈ [sample_iname (.in4 53 3232235777)]) ∧
          sample.sockaddr_isequal e.addr (clear_flowinfo sample (.in4 53 3232235777)) = true)) :=
  allow_list_decision sample
    { sample_init 0 with
        if_except := [sample_iname (.in4 53 167772161)]
        if_addrs := [sample_iname (.in4 53 3232235777)] }
    (.in4 53 3232235777) (by decide)

/-- C8 as stated fails: with OPT_NOWILD set (here by the bind fallback of
lines 155-159) no allow-list check is made.  A connection whose local
address 10.0.0.1 is the address of an `if_except` entry keeps `match = 1`,
a worker is forked for it and `num_kids` goes up. -/
theorem nowild_skips_allow_list :
    bind_options sample 0 false = (8192, 1) ∧
    hasOpt 8192 sample.OPT_NOWILD = true ∧
    sample.sockaddr_isequal (sample_iname (.in4 53 167772161)).addr
      (clear_flowinfo sample (.in4 53 167772161)) = true ∧
    tcp_match sample
      { sample_init 8192 with if_except := [sample_iname (.in4 53 167772161)] }
      (some (.in4 53 167772161)) = 1 ∧
    tcp_connection sample
      { sample_init 8192 with if_except := [sample_iname (.in4 53 167772161)] }
      (some (.in4 53 167772161)) 4711
      = .cont { sample_init 8192 with
                  if_except := [sample_iname (.in4 53 167772161)], num_kids := 1 }
          [.fork 4711, .close_confd] := by
  refine ⟨?_, ?_, ?_, ?_, ?_⟩ <;> decide

/-- C8 (allow-list applicability), amended: the check is made while the
wildcard binding is in effect (OPT_NOWILD clear) and `getsockname`
succeeds; then a connection whose local address equals the address of an
`if_except` entry gets `match = 0`, is closed at once, and nothing is
forked.  With OPT_NOWILD set `match` stays 1 whatever the lists hold. -/
theorem allow_list_applicability (c : Consts) (s : MainState) :
    (hasOpt s.options c.OPT_NOWILD = false →
      ∀ (a : Mysockaddr) (f : Int),
        (∃ e ∈ s.if_except, c.sockaddr_isequal e.addr (clear_flowinfo c a) = true) →
        tcp_match c s (some a) = 0 ∧
        tcp_connection c s (some a) f = .cont s [.close_confd]) ∧
    (hasOpt s.options c.OPT_NOWILD = true →
      ∀ g : Option Mysockaddr, tcp_match c s g = 1) := by
  constructor
  · intro hw a f hex
    have hdec := allow_list_decision c s a hw
    have h0 : tcp_match c s (some a) = 0 := by
      rcases hdec.1 with h | h
      · exact h
      · obtain ⟨e, he, heq⟩ := hex
        have := (hdec.2.mp h).1 e he
        rw [this] at heq
        exact Bool.noConfusion heq
    refine ⟨h0, ?_⟩
    simp only [tcp_connection]
    rw [if_pos (Or.inl h0)]
  · intro hw g
    simp [tcp_match, hw]

/-- Witness for C8 (amended): wildcard binding, 10.0.0.1 excluded, and a
connection arrives on 10.0.0.1. -/
theorem allow_list_applicability_witness :
    hasOpt ({ sample_init 0 with
        if_except := [sample_iname (.in4 53 167772161)] } : MainState).options
      sample.OPT_NOWILD = false ∧
    tcp_match sample { sample_init 0 with
        if_except := [sample_iname (.in4 53 167772161)] } (some (.in4 53 167772161)) = 0 ∧
    tcp_connection sample { sample_init 0 with
        if_except := [sample_iname (.in4 53 167772161)] } (some (.in4 53 167772161)) 4711
      = .cont { sample_init 0 with
          if_except := [sample_iname (.in4 53 167772161)] } [.close_confd] :=
  ⟨by decide,
   (allow_list_applicability sample
      { sample_init 0 with if_except := [sample_iname (.in4 53 167772161)] }).1
      (by decide) (.in4 53 167772161) 4711
      ⟨sample_iname (.in4 53 167772161), List.mem_singleton.mpr rfl, by decide⟩⟩

/-! ### The flag drain -/

theorem drain_sighup_flags (c : Consts) (s : MainState) :
    (drain_sighup c s).1.sighup = 0 ∧ (drain_sighup c s).1.sigusr1 = s.sigusr1 ∧
    (drain_sighup c s).1.sigalarm = s.sigalarm ∧ (drain_sighup c s).1.dhcp = s.dhcp ∧
    (drain_sighup c s).1.sigterm = s.sigterm := by
  unfold drain_sighup
  by_cases h : s.sighup = 0
  · simp [h]
  · rw [if_pos h]
    cases hr : s.resolv with
    | nil => simp
    | cons r rest => by_cases ho : hasOpt s.options c.OPT_NO_POLL = true <;> simp [ho]

theorem drain_sigusr1_flags (s : MainState) :
    (drain_sigusr1 s).1.sigusr1 = 0 ∧ (drain_sigusr1 s).1.sighup = s.sighup ∧
    (drain_sigusr1 s).1.sigalarm = s.sigalarm ∧ (drain_sigusr1 s).1.dhcp = s.dhcp ∧
    (drain_sigusr1 s).1.last_server = s.last_server ∧
    (drain_sigusr1 s).1.sigterm = s.sigterm := by
  unfold drain_sigusr1
  by_cases h : s.sigusr1 = 0 <;> simp [h]

theorem drain_sigalarm_flags (c : Consts) (s : MainState) :
    (drain_sigalarm c s).1.sigalarm = 0 ∧ (drain_sigalarm c s).1.sighup = s.sighup ∧
    (drain_sigalarm c s).1.sigusr1 = s.sigusr1 ∧
    (drain_sigalarm c s).1.last_server = s.last_server ∧
    (drain_sigalarm c s).1.sigterm = s.sigterm := by
  unfold drain_sigalarm
  by_cases h : s.sigalarm = 0 <;> simp [h]

theorem flag_drain_last_server (c : Consts) (s : MainState) :
    (flag_drain c s).1.last_server = (drain_sighup c s).1.last_server := by
  simp only [flag_drain]
  rw [(drain_sigalarm_flags c _).2.2.2.1, (drain_sigusr1_flags _).2.2.2.2.1]

theorem flag_drain_flags (c : Consts) (s : MainState) :
    (flag_drain c s).1.sighup = 0 ∧ (flag_drain c s).1.sigusr1 = 0 ∧
    (flag_drain c s).1.sigalarm = 0 := by
  simp only [flag_drain]
  refine ⟨?_, ?_, ?_⟩
  · rw [(drain_sigalarm_flags c _).2.1, (drain_sigusr1_flags _).2.1]
    exact (drain_sighup_flags c s).1
  · rw [(drain_sigalarm_flags c _).2.2.1]
    exact (drain_sigusr1_flags _).1
  · exact (drain_sigalarm_flags c _).1

/-- C2 as stated fails: with polling enabled (OPT_NO_POLL clear) a reload
drains `sighup` but leaves `last_server` where it was. -/
theorem reload_keeps_affinity_when_polling :
    ({ sample_init 0 with last_server := some 3 } : MainState).sighup = 1 ∧
    (flag_drain sample { sample_init 0 with last_server := some 3 }).1.last_server = some 3 ∧
    (flag_drain sample { sample_init 0 with last_server := some 3 }).1.sighup = 0 := by
  refine ⟨?_, ?_, ?_⟩ <;> decide

/-- C2 (affinity reset on reload), amended: when `sighup` is set at the
top of an iteration the flag drain leaves `sighup = 0`; it leaves
`last_server = NULL` when `resolv` is not NULL and OPT_NO_POLL is set,
and leaves `last_server` at its prior value otherwise. -/
theorem affinity_reset_on_reload (c : Consts) (s : MainState) (h : s.sighup ≠ 0) :
    (flag_drain c s).1.sighup = 0 ∧
    (s.resolv ≠ [] ∧ hasOpt s.options c.OPT_NO_POLL = true →
      (flag_drain c s).1.last_server = none) ∧
    (¬ (s.resolv ≠ [] ∧ hasOpt s.options c.OPT_NO_POLL = true) →
      (flag_drain c s).1.last_server = s.last_server) := by
  refine ⟨(flag_drain_flags c s).1, ?_, ?_⟩
  · rintro ⟨hr, ho⟩
    rw [flag_drain_last_server]
    unfold drain_sighup
    rw [if_pos h]
    cases hres : s.resolv with
    | nil => exact absurd hres hr
    | cons r rest => simp [ho]
  · intro hn
    rw [flag_drain_last_server]
    unfold drain_sighup
    rw [if_pos h]
    cases hres : s.resolv with
    | nil => simp
    | cons r rest =>
        have ho : ¬ hasOpt s.options c.OPT_NO_POLL = true := by
          intro ho
          exact hn ⟨by rw [hres]; simp, ho⟩
        simp [ho]

/-- Witness for C2 (amended): a reload with OPT_NO_POLL set (bit 32). -/
theorem affinity_reset_on_reload_witness :
    ({ sample_init 32 with last_server := some 3 } : MainState).sighup ≠ 0 ∧
    (flag_drain sample { sample_init 32 with last_server := some 3 }).1.sighup = 0 ∧
    (flag_drain sample { sample_init 32 with last_server := some 3 }).1.last_server = none :=
  ⟨by decide,
   (affinity_reset_on_reload sample { sample_init 32 with last_server := some 3 }
      (by decide)).1,
   (affinity_reset_on_reload sample { sample_init 32 with last_server := some 3 }
      (by decide)).2.1 ⟨by decide, by decide⟩⟩

/-! ### Termination and the order of the drain -/

theorem drain_sigusr1_trace (s : MainState) :
    (drain_sigusr1 s).2 = if s.sigusr1 ≠ 0 then [Event.dump_cache] else [] := by
  unfold drain_sigusr1
  by_cases h : s.sigusr1 = 0 <;> simp [h]

theorem drain_sigalarm_trace (c : Consts) (s : MainState) :
    (drain_sigalarm c s).2 =
      if s.sigalarm ≠ 0 then
        (if s.dhcp then
          [Event.lease_update_file 1] ++ (if c.HAVE_BROKEN_RTC then [Event.alarm] else [])
         else [])
      else [] := by
  unfold drain_sigalarm
  by_cases h : s.sigalarm = 0 <;> simp [h]

theorem drain_sighup_trace (c : Consts) (s : MainState) :
    (s.sighup = 0 → (drain_sighup c s).2 = []) ∧
    (s.sighup ≠ 0 → ∃ rest, (drain_sighup c s).2 = Event.cache_reload :: rest ∧
      ∀ e ∈ rest, e ≠ Event.dump_cache ∧ e ≠ Event.lease_update_file 1 ∧
        e ≠ Event.alarm ∧ e ≠ Event.select) := by
  constructor
  · intro h
    simp [drain_sighup, h]
  · intro h
    unfold drain_sighup
    rw [if_pos h]
    cases hres : s.resolv with
    | nil =>
        refine ⟨_, rfl, ?_⟩
        by_cases hd : s.dhcp = true <;> by_cases he2 : hasOpt s.options c.OPT_ETHERS = true <;>
          simp [hd, he2]
    | cons r rest =>
        by_cases ho : hasOpt s.options c.OPT_NO_POLL = true
        · simp only [ho, if_true]
          refine ⟨_, rfl, ?_⟩
          by_cases hd : s.dhcp = true <;>
            by_cases he2 : hasOpt s.options c.OPT_ETHERS = true <;>
            simp [hd, he2]
        · simp only [ho, if_false]
          refine ⟨_, rfl, ?_⟩
          by_cases hd : s.dhcp = true <;>
            by_cases he2 : hasOpt s.options c.OPT_ETHERS = true <;>
            simp [hd, he2]

theorem leave_events (c : Consts) (s : MainState) :
    ∀ e ∈ leave c s,
      e = Event.log_sigterm ∨ e = Event.lease_update_file 1 ∨ e = Event.close_leasefd := by
  intro e he
  unfold leave at he
  simp only [List.mem_append, List.mem_singleton] at he
  rcases he with (he | he) | he
  · exact Or.inl he
  · split_ifs at he
    · exact Or.inr (Or.inl (List.mem_singleton.mp he))
    · simp at he
  · split_ifs at he
    · exact Or.inr (Or.inr (List.mem_singleton.mp he))
    · simp at he

theorem flag_drain_trace (c : Consts) (s : MainState) :
    (flag_drain c s).2 =
      (drain_sighup c s).2 ++
      (if s.sigusr1 ≠ 0 then [Event.dump_cache] else []) ++
      (if s.sigalarm ≠ 0 then
        (if s.dhcp then
          [Event.lease_update_file 1] ++ (if c.HAVE_BROKEN_RTC then [Event.alarm] else [])
         else [])
       else []) := by
  simp only [flag_drain]
  rw [drain_sigusr1_trace, drain_sigalarm_trace, (drain_sigusr1_flags _).2.2.1,
    (drain_sigusr1_flags _).2.2.2.1, (drain_sighup_flags c s).2.1,
    (drain_sighup_flags c s).2.2.1, (drain_sighup_flags c s).2.2.2.1]

/-! ### The scan of the resolver files -/

theorem scan_none (stat : String → Option Int) (r : Resolvc) (rest : List Resolvc)
    (idx : Nat) (lc : Int) (lt : Option Nat) (h : stat r.name = none) :
    scan stat (r :: rest) idx lc lt =
      { resolv := { r with logged := 1 } :: (scan stat rest (idx + 1) lc lt).resolv
        last_change := (scan stat rest (idx + 1) lc lt).last_change
        latest := (scan stat rest (idx + 1) lc lt).latest
        trace := (if r.logged = 0 then [Event.warn_access r.name] else []) ++
          (scan stat rest (idx + 1) lc lt).trace } := by
  simp only [scan, h]

theorem scan_newer (stat : String → Option Int) (r : Resolvc) (rest : List Resolvc)
    (idx : Nat) (lc : Int) (lt : Option Nat) (m : Int) (h : stat r.name = some m)
    (hd : lc < m) :
    scan stat (r :: rest) idx lc lt =
      { resolv := { r with logged := 0 } :: (scan stat rest (idx + 1) m (some idx)).resolv
        last_change := (scan stat rest (idx + 1) m (some idx)).last_change
        latest := (scan stat rest (idx + 1) m (some idx)).latest
        trace := (scan stat rest (idx + 1) m (some idx)).trace } := by
  have hd2 : difftime m lc > 0 := by unfold difftime; omega
  simp only [scan, h, hd2, if_true]

theorem scan_older (stat : String → Option Int) (r : Resolvc) (rest : List Resolvc)
    (idx : Nat) (lc : Int) (lt : Option Nat) (m : Int) (h : stat r.name = some m)
    (hd : m ≤ lc) :
    scan stat (r :: rest) idx lc lt =
      { resolv := { r with logged := 0 } :: (scan stat rest (idx + 1) lc lt).resolv
        last_change := (scan stat rest (idx + 1) lc lt).last_change
        latest := (scan stat rest (idx + 1) lc lt).latest
        trace := (scan stat rest (idx + 1) lc lt).trace } := by
  have hd2 : ¬ difftime m lc > 0 := by unfold difftime; omega
  simp only [scan, h, hd2, if_false]

theorem scan_resolv (stat : String → Option Int) (l : List Resolvc) :
    ∀ (idx : Nat) (lc : Int) (lt : Option Nat),
      (scan stat l idx lc lt).resolv
        = l.map (fun r => { r with logged := if stat r.name = none then 1 else 0 }) := by
  induction l with
  | nil => intro idx lc lt; rfl
  | cons r rest ih =>
      intro idx lc lt
      cases hs : stat r.name with
      | none => rw [scan_none stat r rest idx lc lt hs]; simp [hs, ih]
      | some m =>
          by_cases hd : lc < m
          · rw [scan_newer stat r rest idx lc lt m hs hd]; simp [hs, ih]
          · rw [scan_older stat r rest idx lc lt m hs (not_lt.mp hd)]; simp [hs, ih]

theorem scan_count (stat : String → Option Int) (n : String) (l : List Resolvc) :
    ∀ (idx : Nat) (lc : Int) (lt : Option Nat),
      (scan stat l idx lc lt).trace.count (Event.warn_access n)
        = l.countP (fun r => decide (r.name = n) && decide (stat r.name = none)
            && decide (r.logged = 0)) := by
  induction l with
  | nil => intro idx lc lt; rfl
  | cons r rest ih =>
      intro idx lc lt
      cases hs : stat r.name with
      | none =>
          rw [scan_none stat r rest idx lc lt hs]
          by_cases hn : r.name = n
          · subst hn
            by_cases hl : r.logged = 0 <;>
              simp [hs, ih, hl, List.countP_cons, List.count_cons]
          · by_cases hl : r.logged = 0 <;>
              simp [hs, ih, hl, hn, List.countP_cons, List.count_cons]
      | some m =>
          by_cases hd : lc < m
          · rw [scan_newer stat r rest idx lc lt m hs hd]
            simp [hs, ih, List.countP_cons]
          · rw [scan_older stat r rest idx lc lt m hs (not_lt.mp hd)]
            simp [hs, ih, List.countP_cons]

theorem scan_trace_warn (stat : String → Option Int) (l : List Resolvc) :
    ∀ (idx : Nat) (lc : Int) (lt : Option Nat),
      ∀ e ∈ (scan stat l idx lc lt).trace, ∃ n, e = Event.warn_access n := by
  induction l with
  | nil => intro idx lc lt e he; simp [scan] at he
  | cons r rest ih =>
      intro idx lc lt e he
      cases hs : stat r.name with
      | none =>
          rw [scan_none stat r rest idx lc lt hs] at he
          simp only [List.mem_append] at he
          rcases he with he | he
          · split_ifs at he
            · exact ⟨r.name, List.mem_singleton.mp he⟩
            · simp at he
          · exact ih _ _ _ e he
      | some m =>
          by_cases hd : lc < m
          · rw [scan_newer stat r rest idx lc lt m hs hd] at he
            exact ih _ _ _ e he
          · rw [scan_older stat r rest idx lc lt m hs (not_lt.mp hd)] at he
            exact ih _ _ _ e he

theorem mtimes_none (stat : String → Option Int) (r : Resolvc) (rest : List Resolvc)
    (h : stat r.name = none) : mtimes stat (r :: rest) = mtimes stat rest := by
  simp [mtimes, List.filterMap_cons, h]

theorem mtimes_some (stat : String → Option Int) (r : Resolvc) (rest : List Resolvc)
    (m : Int) (h : stat r.name = some m) :
    mtimes stat (r :: rest) = m :: mtimes stat rest := by
  simp [mtimes, List.filterMap_cons, h]

theorem mem_mtimes (stat : String → Option Int) (l : List Resolvc) (m : Int) :
    m ∈ mtimes stat l ↔ ∃ r ∈ l, stat r.name = some m := by
  simp [mtimes, List.mem_filterMap]

theorem scan_spec (stat : String → Option Int) (l : List Resolvc) :
    ∀ (idx : Nat) (lc : Int) (lt : Option Nat),
      lc ≤ (scan stat l idx lc lt).last_change ∧
      (∀ m ∈ mtimes stat l, m ≤ (scan stat l idx lc lt).last_change) ∧
      ((∀ m ∈ mtimes stat l, m ≤ lc) →
        (scan stat l idx lc lt).last_change = lc ∧ (scan stat l idx lc lt).latest = lt) ∧
      ((∃ m ∈ mtimes stat l, lc < m) →
        ∃ j e, (scan stat l idx lc lt).latest = some (idx + j) ∧ l.get? j = some e ∧
          stat e.name = some (scan stat l idx lc lt).last_change ∧
          lc < (scan stat l idx lc lt).last_change) := by
  induction l with
  | nil =>
      intro idx lc lt
      simp [scan, mtimes]
  | cons r rest ih =>
      intro idx lc lt
      cases hs : stat r.name with
      | none =>
          rw [scan_none stat r rest idx lc lt hs, mtimes_none stat r rest hs]
          obtain ⟨h1, h2, h3, h4⟩ := ih (idx + 1) lc lt
          refine ⟨h1, h2, h3, ?_⟩
          intro hex
          obtain ⟨j, e, hj, he, hst, hlt⟩ := h4 hex
          refine ⟨j + 1, e, ?_, ?_, hst, hlt⟩
          · show (scan stat rest (idx + 1) lc lt).latest = some (idx + (j + 1))
            rw [hj]; congr 1; omega
          · simpa using he
      | some m =>
          rw [mtimes_some stat r rest m hs]
          by_cases hd : lc < m
          · rw [scan_newer stat r rest idx lc lt m hs hd]
            obtain ⟨h1, h2, h3, h4⟩ := ih (idx + 1) m (some idx)
            refine ⟨le_trans (le_of_lt hd) h1, ?_, ?_, ?_⟩
            · intro x hx
              rcases List.mem_cons.mp hx with hx | hx
              · rw [hx]; exact h1
              · exact h2 x hx
            · intro hall
              exact absurd (hall m (List.mem_cons_self m _)) (not_le.mpr hd)
            · intro _
              by_cases hmore : ∃ x ∈ mtimes stat rest, m < x
              · obtain ⟨j, e, hj, he, hst, hlt⟩ := h4 hmore
                refine ⟨j + 1, e, ?_, ?_, hst, lt_trans hd hlt⟩
                · show (scan stat rest (idx + 1) m (some idx)).latest = some (idx + (j + 1))
                  rw [hj]; congr 1; omega
                · simpa using he
              · push_neg at hmore
                obtain ⟨hl, hlat⟩ := h3 hmore
                refine ⟨0, r, ?_, ?_, ?_, ?_⟩
                · show (scan stat rest (idx + 1) m (some idx)).latest = some (idx + 0)
                  rw [hlat]; rfl
                · simp
                · show stat r.name = some (scan stat rest (idx + 1) m (some idx)).last_change
                  rw [hl]; exact hs
                · show lc < (scan stat rest (idx + 1) m (some idx)).last_change
                  rw [hl]; exact hd
          · have hle : m ≤ lc := not_lt.mp hd
            rw [scan_older stat r rest idx lc lt m hs hle]
            obtain ⟨h1, h2, h3, h4⟩ := ih (idx + 1) lc lt
            refine ⟨h1, ?_, ?_, ?_⟩
            · intro x hx
              rcases List.mem_cons.mp hx with hx | hx
              · rw [hx]; exact le_trans hle h1
              · exact h2 x hx
            · intro hall
              exact h3 (fun x hx => hall x (List.mem_cons_of_mem _ hx))
            · rintro ⟨x, hx, hlx⟩
              rcases List.mem_cons.mp hx with hx | hx
              · rw [hx] at hlx; exact absurd hlx hd
              · obtain ⟨j, e, hj, he, hst, hlt⟩ := h4 ⟨x, hx, hlx⟩
                refine ⟨j + 1, e, ?_, ?_, hst, hlt⟩
                · show (scan stat rest (idx + 1) lc lt).latest = some (idx + (j + 1))
                  rw [hj]; congr 1; omega
                · simpa using he

/-! ### Selection of the latest file -/

theorem scan_selects (stat : String → Option Int) (l : List Resolvc)
    (h : ∃ r ∈ l, ∃ m, stat r.name = some m ∧ 0 < m) :
    ∃ j e, (scan stat l 0 0 none).latest = some j ∧ l.get? j = some e ∧
      stat e.name = some (scan stat l 0 0 none).last_change ∧
      ∀ r ∈ l, ∀ m, stat r.name = some m → m ≤ (scan stat l 0 0 none).last_change := by
  obtain ⟨r, hr, m, hm, hpos⟩ := h
  obtain ⟨_, h2, _, h4⟩ := scan_spec stat l 0 0 none
  obtain ⟨j, e, hj, he, hst, _⟩ := h4 ⟨m, (mem_mtimes stat l m).mpr ⟨r, hr, hm⟩, hpos⟩
  refine ⟨j, e, ?_, he, hst, ?_⟩
  · rw [hj]; congr 1; omega
  · intro r2 hr2 m2 hm2
    exact h2 m2 ((mem_mtimes stat l m2).mpr ⟨r2, hr2, hm2⟩)

theorem scan_selected_readable (stat : String → Option Int) (l : List Resolvc) (j : Nat)
    (h : (scan stat l 0 0 none).latest = some j) :
    ∃ e, l.get? j = some e ∧ stat e.name = some (scan stat l 0 0 none).last_change := by
  obtain ⟨_, _, h3, h4⟩ := scan_spec stat l 0 0 none
  by_cases hex : ∃ m ∈ mtimes stat l, 0 < m
  · obtain ⟨k, e, hk, he, hst, _⟩ := h4 hex
    rw [hk] at h
    simp only [zero_add, Option.some.injEq] at h
    subst h
    exact ⟨e, he, hst⟩
  · push_neg at hex
    rw [(h3 hex).2] at h
    exact Option.noConfusion h

theorem poll_ab (c : Consts) (s : MainState) (a b : Resolvc) (x y : Int)
    (hres : s.resolv = [a, b]) (ha : a.name = "A") (hb : b.name = "B") :
    (x < y → 0 < y → s.resolv_changed < y →
      (scan (stat_ab x y) s.resolv 0 0 none).latest = some 1 ∧
      (poll_resolv c (stat_ab x y) s).2 = [Event.rebuild "B"] ∧
      (poll_resolv c (stat_ab x y) s).1.resolv_changed = y ∧
      (poll_resolv c (stat_ab x y) s).1.last_server = none ∧
      (poll_resolv c (stat_ab x y) s).1.resolv
        = [{ a with logged := 0 }, { b with logged := 0 }]) ∧
    (y < x → 0 < x → s.resolv_changed < x →
      (scan (stat_ab x y) s.resolv 0 0 none).latest = some 0 ∧
      (poll_resolv c (stat_ab x y) s).2 = [Event.rebuild "A"] ∧
      (poll_resolv c (stat_ab x y) s).1.resolv_changed = x ∧
      (poll_resolv c (stat_ab x y) s).1.last_server = none) := by
  have hsa : stat_ab x y a.name = some x := by simp [stat_ab, ha]
  have hsb : stat_ab x y b.name = some y := by simp [stat_ab, hb]
  constructor
  · intro hxy hy hrc
    have hd : difftime y s.resolv_changed > 0 := by unfold difftime; omega
    by_cases hx : 0 < x
    · have e1 : scan (stat_ab x y) [a, b] 0 0 none
          = ⟨[{ a with logged := 0 }, { b with logged := 0 }], y, some 1, []⟩ := by
        rw [scan_newer _ a [b] 0 0 none x hsa hx, scan_newer _ b [] 1 x (some 0) y hsb hxy]
        simp [scan]
      simp [poll_resolv, hres, e1, hd, resolv_name, hb]
    · have e1 : scan (stat_ab x y) [a, b] 0 0 none
          = ⟨[{ a with logged := 0 }, { b with logged := 0 }], y, some 1, []⟩ := by
        rw [scan_older _ a [b] 0 0 none x hsa (not_lt.mp hx),
          scan_newer _ b [] 1 0 none y hsb hy]
        simp [scan]
      simp [poll_resolv, hres, e1, hd, resolv_name, hb]
  · intro hyx hx hrc
    have hd : difftime x s.resolv_changed > 0 := by unfold difftime; omega
    have e1 : scan (stat_ab x y) [a, b] 0 0 none
        = ⟨[{ a with logged := 0 }, { b with logged := 0 }], x, some 0, []⟩ := by
      rw [scan_newer _ a [b] 0 0 none x hsa hx,
        scan_older _ b [] 1 x (some 0) y hsb (le_of_lt hyx)]
      simp [scan]
    simp [poll_resolv, hres, e1, hd, resolv_name, ha]

/-- C5 as stated fails: a readable file whose modification time is 0 (the
epoch, the start value of `last_change`) is not selected; `latest` stays
NULL although a file is readable. -/
theorem epoch_file_not_selected :
    stat_all 0 "/etc/resolv.conf" = some 0 ∧
    (sample_init 0).resolv = [⟨1, 0, "/etc/resolv.conf"⟩] ∧
    (scan (stat_all 0) (sample_init 0).resolv 0 0 none).latest = none ∧
    (scan (stat_all 0) (sample_init 0).resolv 0 0 none).last_change = 0 := by
  refine ⟨?_, ?_, ?_, ?_⟩ <;> decide

/-- C5 (latest-file selection), amended: if at least one file is readable
with a modification time later than 0, the scan leaves `latest` at an
entry of the list that is readable and whose modification time is
`last_change`, and no readable file has a later one.  Scenario: with files
"A" (T1) and "B" (T2 > T1, T2 > 0) the first poll selects "B" and rebuilds
from it; once "A" has T3 > T2 the next poll selects "A" and rebuilds from it. -/
theorem latest_file_selection (c : Consts) :
    (∀ (stat : String → Option Int) (l : List Resolvc),
      (∃ r ∈ l, ∃ m, stat r.name = some m ∧ 0 < m) →
      ∃ j e, (scan stat l 0 0 none).latest = some j ∧ l.get? j = some e ∧
        stat e.name = some (scan stat l 0 0 none).last_change ∧
        ∀ r ∈ l, ∀ m, stat r.name = some m → m ≤ (scan stat l 0 0 none).last_change) ∧
    (∀ (stat : String → Option Int) (l : List Resolvc) (j : Nat),
      (scan stat l 0 0 none).latest = some j →
      ∃ e, l.get? j = some e ∧ stat e.name = some (scan stat l 0 0 none).last_change) ∧
    (∀ (s : MainState) (a b : Resolvc) (T1 T2 T3 : Int),
      s.resolv = [a, b] → a.name = "A" → b.name = "B" → s.resolv_changed = 0 →
      T1 < T2 → 0 < T2 → T2 < T3 →
      (scan (stat_ab T1 T2) s.resolv 0 0 none).latest = some 1 ∧
      (poll_resolv c (stat_ab T1 T2) s).2 = [Event.rebuild "B"] ∧
      (scan (stat_ab T3 T2) (poll_resolv c (stat_ab T1 T2) s).1.resolv 0 0 none).latest
        = some 0 ∧
      (poll_resolv c (stat_ab T3 T2) (poll_resolv c (stat_ab T1 T2) s).1).2
        = [Event.rebuild "A"]) := by
  refine ⟨scan_selects, scan_selected_readable, ?_⟩
  intro s a b T1 T2 T3 hres ha hb hrc h12 h2 h23
  obtain ⟨h1, h2', h3, _, h5⟩ := (poll_ab c s a b T1 T2 hres ha hb).1 h12 h2 (by omega)
  have hnext := (poll_ab c (poll_resolv c (stat_ab T1 T2) s).1
    { a with logged := 0 } { b with logged := 0 } T3 T2 h5 ha hb).2 h23 (by omega)
    (by rw [h3]; exact h23)
  exact ⟨h1, h2', hnext.1, hnext.2.1⟩

/-- Witness for C5 (amended): "A" at 100 and "B" at 200, then "A" at 300. -/
theorem latest_file_selection_witness :
    (∃ j e, (scan (stat_ab 100 200) sample_ab.resolv 0 0 none).latest = some j ∧
        sample_ab.resolv.get? j = some e ∧
        stat_ab 100 200 e.name
          = some (scan (stat_ab 100 200) sample_ab.resolv 0 0 none).last_change ∧
        ∀ r ∈ sample_ab.resolv, ∀ m, stat_ab 100 200 r.name = some m →
          m ≤ (scan (stat_ab 100 200) sample_ab.resolv 0 0 none).last_change) ∧
    ((scan (stat_ab 100 200) sample_ab.resolv 0 0 none).latest = some 1 ∧
      (poll_resolv sample (stat_ab 100 200) sample_ab).2 = [Event.rebuild "B"] ∧
      (scan (stat_ab 300 200)
          (poll_resolv sample (stat_ab 100 200) sample_ab).1.resolv 0 0 none).latest
        = some 0 ∧
      (poll_resolv sample (stat_ab 300 200)
          (poll_resolv sample (stat_ab 100 200) sample_ab).1).2
        = [Event.rebuild "A"]) :=
  ⟨(latest_file_selection sample).1 (stat_ab 100 200) sample_ab.resolv
      ⟨⟨0, 0, "B"⟩, by decide, 200, by decide, by decide⟩,
   (latest_file_selection sample).2.2 sample_ab ⟨0, 0, "A"⟩ ⟨0, 0, "B"⟩ 100 200 300
      rfl rfl rfl rfl (by decide) (by decide) (by decide)⟩

/-! ### Warnings about unreadable files -/

theorem poll_resolv_resolv (c : Consts) (stat : String → Option Int) (s : MainState) :
    (poll_resolv c stat s).1.resolv
      = s.resolv.map (fun r => { r with logged := if stat r.name = none then 1 else 0 }) := by
  unfold poll_resolv
  simp only
  split
  · split_ifs <;> exact scan_resolv stat s.resolv 0 0 none
  · exact scan_resolv stat s.resolv 0 0 none

theorem poll_resolv_count (c : Consts) (stat : String → Option Int) (s : MainState)
    (n : String) :
    (poll_resolv c stat s).2.count (Event.warn_access n)
      = s.resolv.countP (fun r => decide (r.name = n) && decide (stat r.name = none)
          && decide (r.logged = 0)) := by
  unfold poll_resolv
  simp only
  split
  · split_ifs
    · rw [List.count_append, scan_count]
      simp [List.count_cons]
    · exact scan_count stat n s.resolv 0 0 none
  · exact scan_count stat n s.resolv 0 0 none

theorem entries_relog (stat : String → Option Int) (l : List Resolvc) (n : String) :
    entries (l.map (fun r => { r with logged := if stat r.name = none then 1 else 0 })) n
      = entries l n := by
  unfold entries
  rw [List.countP_map]
  rfl

theorem warnings_zero (c : Consts) (st : String → Option Int)
    (rest : List (String → Option Int)) (s : MainState) (n : String) :
    warnings c (st :: rest) s n 0
      = s.resolv.countP (fun r => decide (r.name = n) && decide (st r.name = none)
          && decide (r.logged = 0)) := by
  simp only [warnings, poll_seq, List.getD_cons_zero]
  exact poll_resolv_count c st s n

theorem warnings_succ (c : Consts) (st : String → Option Int)
    (rest : List (String → Option Int)) (s : MainState) (n : String) (i : Nat) :
    warnings c (st :: rest) s n (i + 1) = warnings c rest (poll_resolv c st s).1 n i := by
  simp only [warnings, poll_seq, List.getD_cons_succ]

theorem countP_name (l : List Resolvc) (n : String) (q : Resolvc → Bool) (b : Bool)
    (h : ∀ r ∈ l, r.name = n → q r = b) :
    l.countP (fun r => decide (r.name = n) && q r) = if b then entries l n else 0 := by
  induction l with
  | nil => simp [entries]
  | cons r rest ih =>
      have ih2 := ih (fun x hx => h x (List.mem_cons_of_mem _ hx))
      have hr := h r (List.mem_cons_self r rest)
      by_cases hn : r.name = n
      · have := hr hn
        cases b <;> simp_all [entries, List.countP_cons]
      · cases b <;> simp_all [entries, List.countP_cons]

theorem warnings_first (c : Consts) (st : String → Option Int)
    (rest : List (String → Option Int)) (s : MainState) (n : String)
    (h0 : ∀ r ∈ s.resolv, r.name = n → r.logged = 0) :
    warnings c (st :: rest) s n 0 = if st n = none then entries s.resolv n else 0 := by
  rw [warnings_zero]
  have := countP_name s.resolv n
    (fun r => decide (st r.name = none) && decide (r.logged = 0)) (decide (st n = none))
    (by intro r hr hn; simp [h0 r hr hn, hn])
  simp only [Bool.and_assoc, decide_eq_true_eq] at this ⊢
  exact this

theorem warnings_later (c : Consts) (n : String) :
    ∀ (i : Nat) (stats : List (String → Option Int)) (s : MainState)
      (p st : String → Option Int),
      stats.get? i = some p → stats.get? (i + 1) = some st →
      warnings c stats s n (i + 1)
        = if st n = none ∧ p n ≠ none then entries s.resolv n else 0 := by
  intro i
  induction i with
  | zero =>
      intro stats s p st hp hst
      match stats, hp, hst with
      | x :: y :: rest, hp, hst =>
          simp only [List.get?_cons_zero, List.get?_cons_succ, Option.some.injEq] at hp hst
          subst hp; subst hst
          rw [warnings_succ, warnings_zero, poll_resolv_resolv, List.countP_map]
          have := countP_name s.resolv n
            (fun r => decide (y r.name = none) &&
              decide ((if x r.name = none then (1 : Int) else 0) = 0))
            (decide (y n = none ∧ x n ≠ none))
            (by
              intro r _ hn
              by_cases h1 : y n = none <;> by_cases h2 : x n = none <;> simp [hn, h1, h2])
          simp only [decide_eq_true_eq] at this
          rw [← this]
          apply List.countP_congr
          intro r _
          simp [Bool.and_assoc]
  | succ k ih =>
      intro stats s p st hp hst
      match stats, hp, hst with
      | x :: rest, hp, hst =>
          simp only [List.get?_cons_succ] at hp hst
          rw [warnings_succ, ih rest _ p st hp hst, poll_resolv_resolv, entries_relog]

theorem warnings_at (c : Consts) (stats : List (String → Option Int)) (s : MainState)
    (n : String) (h0 : ∀ r ∈ s.resolv, r.name = n → r.logged = 0) (i : Nat) (st : String → Option Int)
    (hst : stats.get? i = some st) :
    warnings c stats s n i =
      if st n = none ∧ (i = 0 ∨ ∃ p, stats.get? (i - 1) = some p ∧ p n ≠ none)
      then entries s.resolv n else 0 := by
  cases i with
  | zero =>
      match stats, hst with
      | x :: rest, hst =>
          simp only [List.get?_cons_zero, Option.some.injEq] at hst
          subst hst
          rw [warnings_first c x rest s n h0]
          simp
  | succ k =>
      have hlen : k + 1 < stats.length := by
        by_contra hc
        rw [List.get?_eq_none.mpr (not_lt.mp hc)] at hst
        exact Option.noConfusion hst
      have hk : k < stats.length := Nat.lt_of_succ_lt hlen
      have hp : stats.get? k = some (stats.get ⟨k, hk⟩) := List.get?_eq_get hk
      rw [warnings_later c n k stats s _ st hp hst]
      have hiff : (k + 1 = 0 ∨ ∃ p, stats.get? (k + 1 - 1) = some p ∧ p n ≠ none)
          ↔ (stats.get ⟨k, hk⟩) n ≠ none := by
        constructor
        · rintro (h | ⟨p, hp2, hne⟩)
          · omega
          · rw [Nat.add_sub_cancel, hp] at hp2
            simp only [Option.some.injEq] at hp2
            rw [hp2]; exact hne
        · intro hne
          exact Or.inr ⟨_, by rw [Nat.add_sub_cancel]; exact hp, hne⟩
      simp only [hiff]

/-- C4 (warning suppression).  The `logged` flag of every entry naming the
file `n` starts at 0.  At poll `i`
the number of "failed to access" warnings for the file `n` is one for
each list entry naming `n` if `stat` fails on `n` at poll `i` and either
`i` is the first poll or `stat` succeeded on `n` at poll `i - 1`, and zero
otherwise.  Hence over a run of failing polls `i .. i + k` that starts at
the first poll or right after a success, exactly one warning per entry is
written in total. -/
theorem warning_suppression (c : Consts) (stats : List (String → Option Int))
    (s : MainState) (n : String) (h0 : ∀ r ∈ s.resolv, r.name = n → r.logged = 0) :
    (∀ (i : Nat) (st : String → Option Int), stats.get? i = some st →
      warnings c stats s n i =
        if st n = none ∧ (i = 0 ∨ ∃ p, stats.get? (i - 1) = some p ∧ p n ≠ none)
        then entries s.resolv n else 0) ∧
    (∀ (i k : Nat),
      (∀ t, i ≤ t → t ≤ i + k → ∃ st, stats.get? t = some st ∧ st n = none) →
      (i = 0 ∨ ∃ p, stats.get? (i - 1) = some p ∧ p n ≠ none) →
      ((List.range (k + 1)).map (fun d => warnings c stats s n (i + d))).sum
        = entries s.resolv n) := by
  refine ⟨warnings_at c stats s n h0, ?_⟩
  intro i k
  induction k with
  | zero =>
      intro hrun hstart
      obtain ⟨st, hst, hfail⟩ := hrun i (le_refl i) (by omega)
      have hr : List.range (0 + 1) = [0] := rfl
      rw [hr]
      simp only [List.map_cons, List.map_nil, List.sum_cons, List.sum_nil, add_zero]
      rw [warnings_at c stats s n h0 i st hst, if_pos ⟨hfail, hstart⟩]
  | succ k ih =>
      intro hrun hstart
      have hprev := ih (fun t h1 h2 => hrun t h1 (by omega)) hstart
      obtain ⟨st, hst, hfail⟩ := hrun (i + (k + 1)) (by omega) (by omega)
      obtain ⟨p, hp, hpfail⟩ := hrun (i + k) (by omega) (by omega)
      rw [List.range_succ, List.map_append, List.sum_append, hprev]
      simp only [List.map_cons, List.map_nil, List.sum_cons, List.sum_nil, add_zero]
      rw [warnings_at c stats s n h0 (i + (k + 1)) st hst]
      have hno : ¬ (st n = none ∧ (i + (k + 1) = 0 ∨
          ∃ q, stats.get? (i + (k + 1) - 1) = some q ∧ q n ≠ none)) := by
        rintro ⟨_, h | ⟨q, hq, hne⟩⟩
        · omega
        · have : i + (k + 1) - 1 = i + k := by omega
          rw [this, hp] at hq
          simp only [Option.some.injEq] at hq
          rw [← hq] at hne
          exact hne hpfail
      rw [if_neg hno, add_zero]

/-- Witness for C4: the default file is unreadable at polls 0 and 1,
readable at poll 2 and unreadable again at polls 3 and 4; warnings are
written at polls 0 and 3 only. -/
theorem warning_suppression_witness :
    (∀ r ∈ (sample_init 0).resolv, r.name = "/etc/resolv.conf" → r.logged = 0) ∧
    (List.range 5).map
        (warnings sample
          [fun _ => none, fun _ => none, stat_all 7, fun _ => none, fun _ => none]
          (sample_init 0) "/etc/resolv.conf")
      = [1, 0, 0, 1, 0] ∧
    ((List.range (1 + 1)).map (fun d => warnings sample
          [fun _ => none, fun _ => none, stat_all 7, fun _ => none, fun _ => none]
          (sample_init 0) "/etc/resolv.conf" (3 + d))).sum
      = entries (sample_init 0).resolv "/etc/resolv.conf" :=
  ⟨by decide, by decide,
   (warning_suppression sample
      [fun _ => none, fun _ => none, stat_all 7, fun _ => none, fun _ => none]
      (sample_init 0) "/etc/resolv.conf" (by decide)).2 3 1
      (by
        intro t h1 h2
        have ht : t = 3 ∨ t = 4 := by omega
        rcases ht with rfl | rfl
        · exact ⟨fun _ => none, rfl, rfl⟩
        · exact ⟨fun _ => none, rfl, rfl⟩)
      (Or.inr ⟨stat_all 7, rfl, by decide⟩)⟩

/-! ### Rebuilding the server pool from the latest file -/

theorem mtimes_relog (stat st : String → Option Int) (l : List Resolvc) :
    mtimes stat (l.map (fun r => { r with logged := if st r.name = none then 1 else 0 }))
      = mtimes stat l := by
  unfold mtimes
  rw [List.filterMap_map]
  rfl

theorem poll_rc_mono (c : Consts) (stat : String → Option Int) (s : MainState) :
    s.resolv_changed ≤ (poll_resolv c stat s).1.resolv_changed := by
  unfold poll_resolv
  simp only
  split
  · split_ifs with hd
    · simp only [difftime] at hd
      show s.resolv_changed ≤ (scan stat s.resolv 0 0 none).last_change
      omega
    · exact le_refl _
  · exact le_refl _

theorem poll_run_rc (c : Consts) (past : List (String → Option Int)) :
    ∀ s : MainState, s.resolv_changed ≤ (poll_run c past s).resolv_changed := by
  induction past with
  | nil => intro s; exact le_refl _
  | cons st rest ih =>
      intro s
      exact le_trans (poll_rc_mono c st s) (ih _)

theorem poll_rebuild (c : Consts) (stat : String → Option Int) (s : MainState)
    (hrc : 0 ≤ s.resolv_changed)
    (h : ∃ m ∈ mtimes stat s.resolv, s.resolv_changed < m) :
    ∃ j e ws, s.resolv.get? j = some e ∧
      stat e.name = some (poll_resolv c stat s).1.resolv_changed ∧
      (∀ m ∈ mtimes stat s.resolv, m ≤ (poll_resolv c stat s).1.resolv_changed) ∧
      s.resolv_changed < (poll_resolv c stat s).1.resolv_changed ∧
      (poll_resolv c stat s).1.servers = c.reload_servers e.name s.servers ∧
      (poll_resolv c stat s).1.last_server = none ∧
      (poll_resolv c stat s).2 = ws ++ [Event.rebuild e.name] ∧
      ∀ x ∈ ws, ∃ nm, x = Event.warn_access nm := by
  obtain ⟨m, hm, hlt⟩ := h
  obtain ⟨_, h2, _, h4⟩ := scan_spec stat s.resolv 0 0 none
  obtain ⟨j, e, hj, he, hst, _⟩ := h4 ⟨m, hm, by omega⟩
  have hj2 : (scan stat s.resolv 0 0 none).latest = some j := by rw [hj]; congr 1; omega
  have hbig : s.resolv_changed < (scan stat s.resolv 0 0 none).last_change :=
    lt_of_lt_of_le hlt (h2 m hm)
  have hd : difftime (scan stat s.resolv 0 0 none).last_change s.resolv_changed > 0 := by
    unfold difftime; omega
  have hname : resolv_name s.resolv j = e.name := by simp only [resolv_name, he]
  refine ⟨j, e, (scan stat s.resolv 0 0 none).trace, he, ?_, ?_, ?_, ?_, ?_, ?_,
    scan_trace_warn stat s.resolv 0 0 none⟩
  all_goals simp only [poll_resolv, hj2, hd, if_true, hname]
  · exact hst
  · exact h2
  · exact hbig

theorem poll_keep (c : Consts) (stat : String → Option Int) (s : MainState)
    (hrc : 0 ≤ s.resolv_changed)
    (h : ∀ m ∈ mtimes stat s.resolv, m ≤ s.resolv_changed) :
    (poll_resolv c stat s).1.resolv_changed = s.resolv_changed ∧
    (poll_resolv c stat s).1.servers = s.servers ∧
    (poll_resolv c stat s).1.last_server = s.last_server ∧
    ∀ nm, Event.rebuild nm ∉ (poll_resolv c stat s).2 := by
  obtain ⟨_, _, h3, h4⟩ := scan_spec stat s.resolv 0 0 none
  have hold : (scan stat s.resolv 0 0 none).last_change ≤ s.resolv_changed := by
    by_cases hex : ∃ m ∈ mtimes stat s.resolv, 0 < m
    · obtain ⟨j, e, _, he, hst, _⟩ := h4 hex
      exact h _ ((mem_mtimes stat s.resolv _).mpr ⟨e, List.get?_mem he, hst⟩)
    · push_neg at hex
      rw [(h3 hex).1]; exact hrc
  have hd : ¬ difftime (scan stat s.resolv 0 0 none).last_change s.resolv_changed > 0 := by
    unfold difftime; omega
  have hnot : ∀ nm, Event.rebuild nm ∉ (scan stat s.resolv 0 0 none).trace := by
    intro nm hmem
    obtain ⟨n2, hn2⟩ := scan_trace_warn stat s.resolv 0 0 none _ hmem
    exact Event.noConfusion hn2
  cases hl : (scan stat s.resolv 0 0 none).latest with
  | none => simp only [poll_resolv, hl]; exact ⟨trivial, trivial, trivial, hnot⟩
  | some j => simp only [poll_resolv, hl, hd, if_false]; exact ⟨trivial, trivial, trivial, hnot⟩

theorem polls_quiet (c : Consts) (stat : String → Option Int) (k : Nat) :
    ∀ u : MainState, 0 ≤ u.resolv_changed →
      (∀ m ∈ mtimes stat u.resolv, m ≤ u.resolv_changed) →
      ∀ tr ∈ poll_seq c (List.replicate k stat) u, ∀ nm, Event.rebuild nm ∉ tr := by
  induction k with
  | zero => intro u _ _ tr htr; simp [poll_seq] at htr
  | succ k ih =>
      intro u hrc hall tr htr
      obtain ⟨h1, _, _, h4⟩ := poll_keep c stat u hrc hall
      simp only [List.replicate_succ, poll_seq, List.mem_cons] at htr
      rcases htr with htr | htr
      · rw [htr]; exact h4
      · refine ih (poll_resolv c stat u).1 (by rw [h1]; exact hrc) ?_ tr htr
        rw [poll_resolv_resolv, mtimes_relog, h1]
        exact hall

/-- C3 as stated fails: after a rebuild at latest modification time 9 the
latest time among the readable files changes to 5 and then to 7; both
differ from the recorded 9 and from each other, and neither poll rebuilds. -/
theorem older_mtime_no_rebuild :
    poll_seq sample [stat_all 9, stat_all 5, stat_all 7] (sample_init 0)
      = [[.rebuild "/etc/resolv.conf"], [], []] ∧
    (poll_run sample [stat_all 9] (sample_init 0)).resolv_changed = 9 ∧
    mtimes (stat_all 5) (sample_init 0).resolv = [5] ∧
    mtimes (stat_all 7) (sample_init 0).resolv = [7] ∧
    (poll_run sample [stat_all 9, stat_all 5, stat_all 7] (sample_init 0)).resolv_changed = 9 := by
  refine ⟨?_, ?_, ?_, ?_, ?_⟩ <;> decide

/-- C3 (rebuild on a newer latest mtime), amended.  Let `s` be the state
after any sequence of polls from `resolv_changed = 0`.  If some readable
file is newer than `resolv_changed`, the next poll rebuilds once, from a
readable file whose modification time is the latest of all readable ones,
sets `resolv_changed` to that time and `last_server` to NULL.  If no
readable file is newer than `resolv_changed` (the latest time is equal or
older), the poll rebuilds nothing and leaves `resolv_changed`, `servers`
and `last_server` alone.  Either way any number of further polls over the
same modification times rebuild nothing. -/
theorem rebuild_on_newer_mtime (c : Consts) (past : List (String → Option Int))
    (s0 s : MainState) (h0 : s0.resolv_changed = 0) (hs : poll_run c past s0 = s)
    (stat : String → Option Int) :
    ((∃ m ∈ mtimes stat s.resolv, s.resolv_changed < m) →
      ∃ j e ws, s.resolv.get? j = some e ∧
        stat e.name = some (poll_resolv c stat s).1.resolv_changed ∧
        (∀ m ∈ mtimes stat s.resolv, m ≤ (poll_resolv c stat s).1.resolv_changed) ∧
        s.resolv_changed < (poll_resolv c stat s).1.resolv_changed ∧
        (poll_resolv c stat s).1.servers = c.reload_servers e.name s.servers ∧
        (poll_resolv c stat s).1.last_server = none ∧
        (poll_resolv c stat s).2 = ws ++ [Event.rebuild e.name] ∧
        ∀ x ∈ ws, ∃ nm, x = Event.warn_access nm) ∧
    ((∀ m ∈ mtimes stat s.resolv, m ≤ s.resolv_changed) →
      (poll_resolv c stat s).1.resolv_changed = s.resolv_changed ∧
      (poll_resolv c stat s).1.servers = s.servers ∧
      (poll_resolv c stat s).1.last_server = s.last_server ∧
      ∀ nm, Event.rebuild nm ∉ (poll_resolv c stat s).2) ∧
    (∀ k, ∀ tr ∈ poll_seq c (List.replicate k stat) (poll_resolv c stat s).1,
      ∀ nm, Event.rebuild nm ∉ tr) := by
  have hrc : 0 ≤ s.resolv_changed := by
    rw [← hs, ← h0]; exact poll_run_rc c past s0
  refine ⟨poll_rebuild c stat s hrc, poll_keep c stat s hrc, ?_⟩
  intro k
  have hrc2 : 0 ≤ (poll_resolv c stat s).1.resolv_changed :=
    le_trans hrc (poll_rc_mono c stat s)
  refine polls_quiet c stat k _ hrc2 ?_
  rw [poll_resolv_resolv, mtimes_relog]
  by_cases hnew : ∃ m ∈ mtimes stat s.resolv, s.resolv_changed < m
  · obtain ⟨_, _, _, _, _, hmax, _⟩ := poll_rebuild c stat s hrc hnew
    exact hmax
  · push_neg at hnew
    rw [(poll_keep c stat s hrc hnew).1]
    exact hnew

/-- Witness for C3 (amended): rebuilt at time 9, then the file is touched
at time 12. -/
theorem rebuild_on_newer_mtime_witness :
    (sample_init 0).resolv_changed = 0 ∧
    (∃ m ∈ mtimes (stat_all 12) (poll_run sample [stat_all 9] (sample_init 0)).resolv,
      (poll_run sample [stat_all 9] (sample_init 0)).resolv_changed < m) ∧
    (∃ j e ws, (poll_run sample [stat_all 9] (sample_init 0)).resolv.get? j = some e ∧
      stat_all 12 e.name = some (poll_resolv sample (stat_all 12)
        (poll_run sample [stat_all 9] (sample_init 0))).1.resolv_changed ∧
      (∀ m ∈ mtimes (stat_all 12) (poll_run sample [stat_all 9] (sample_init 0)).resolv,
        m ≤ (poll_resolv sample (stat_all 12)
          (poll_run sample [stat_all 9] (sample_init 0))).1.resolv_changed) ∧
      (poll_run sample [stat_all 9] (sample_init 0)).resolv_changed
        < (poll_resolv sample (stat_all 12)
          (poll_run sample [stat_all 9] (sample_init 0))).1.resolv_changed ∧
      (poll_resolv sample (stat_all 12)
          (poll_run sample [stat_all 9] (sample_init 0))).1.servers
        = sample.reload_servers e.name (poll_run sample [stat_all 9] (sample_init 0)).servers ∧
      (poll_resolv sample (stat_all 12)
          (poll_run sample [stat_all 9] (sample_init 0))).1.last_server = none ∧
      (poll_resolv sample (stat_all 12) (poll_run sample [stat_all 9] (sample_init 0))).2
        = ws ++ [Event.rebuild e.name] ∧
      ∀ x ∈ ws, ∃ nm, x = Event.warn_access nm) :=
  ⟨rfl, ⟨12, by decide, by decide⟩,
   (rebuild_on_newer_mtime sample [stat_all 9] (sample_init 0)
      (poll_run sample [stat_all 9] (sample_init 0)) rfl rfl (stat_all 12)).1
      ⟨12, by decide, by decide⟩⟩

/-! ### The debounce of the maintenance block -/

theorem poll_resolv_last (c : Consts) (stat : String → Option Int) (s : MainState) :
    (poll_resolv c stat s).1.last = s.last ∧ (poll_resolv c stat s).1.now = s.now := by
  unfold poll_resolv
  simp only
  split
  · split_ifs <;> exact ⟨rfl, rfl⟩
  · exact ⟨rfl, rfl⟩

theorem maintenance_skipped (c : Consts) (stat : String → Option Int) (s : MainState)
    (h1 : s.last ≠ 0) (h2 : s.now - s.last ≤ 1) : maintenance c stat s = (s, []) := by
  have hdue : maintenance_due s = false := by
    simp only [maintenance_due, difftime, decide_eq_false_iff_not]
    rintro (h | h)
    · exact h1 h
    · omega
  simp [maintenance, hdue]

theorem maintenance_last (c : Consts) (stat : String → Option Int) (s : MainState)
    (h : maintenance_due s = true) : (maintenance c stat s).1.last = s.now := by
  unfold maintenance
  rw [if_pos h]
  by_cases ho : hasOpt s.options c.OPT_NO_POLL = true
  · simp [ho]
  · simp only [ho, not_false_eq_true, if_true]
    exact (poll_resolv_last c stat _).1

/-- C6 (time debounce) at the failing input: the clock reads 0 in two
successive iterations.  The maintenance block (seen through `load_dhcp`,
which it calls every time when the ISC reader is compiled in) runs in both
iterations, because `last` is still 0 after the first.  With the clock at
5 in both iterations it runs in the first only. -/
theorem maintenance_twice_at_zero :
    (main_loop sample_isc [idle_input 0, idle_input 0]
        { sample_init 0 with lease_file := true }).trace
      = [.cache_reload, .load_dhcp, .warn_access "/etc/resolv.conf", .select, .load_dhcp] ∧
    (main_loop sample_isc [idle_input 5, idle_input 5]
        { sample_init 0 with lease_file := true }).trace
      = [.cache_reload, .load_dhcp, .warn_access "/etc/resolv.conf", .select] ∧
    (maintenance sample_isc (fun _ => none)
        { sample_init 0 with lease_file := true, now := 0 }).1.last = 0 ∧
    maintenance_due (maintenance sample_isc (fun _ => none)
        { sample_init 0 with lease_file := true, now := 0 }).1 = true := by
  refine ⟨?_, ?_, ?_, ?_⟩ <;> decide

theorem maint_after_run (c : Consts) (rs : List (Int × (String → Option Int))) :
    ∀ s : MainState, (∀ x ∈ rs, x.1 ≠ 0) → s.last ≠ 0 →
      ∀ (j : Nat) (y : Int × (String → Option Int)), rs.get? j = some y →
        (maint_seq c rs s).get? j = some true → s.last + 1 < y.1 := by
  induction rs with
  | nil => intro s _ _ j y hy; simp at hy
  | cons x rest ih =>
      intro s hnz hlast j y hy hran
      obtain ⟨now, stat⟩ := x
      have hnow : now ≠ 0 := hnz (now, stat) (List.mem_cons_self _ _)
      have hrest : ∀ z ∈ rest, z.1 ≠ 0 := fun z hz => hnz z (List.mem_cons_of_mem _ hz)
      by_cases hdue : maintenance_due { s with now := now } = true
      · have hgap : s.last + 1 < now := by
          simp only [maintenance_due, difftime, decide_eq_true_eq] at hdue
          rcases hdue with h | h
          · exact absurd h hlast
          · omega
        have hnew : (maintenance c stat { s with now := now }).1.last = now :=
          maintenance_last c stat _ hdue
        cases j with
        | zero =>
            simp only [List.get?_cons_zero, Option.some.injEq] at hy
            rw [← hy]; exact hgap
        | succ k =>
            simp only [List.get?_cons_succ] at hy
            simp only [maint_seq, List.get?_cons_succ] at hran
            have := ih _ hrest (by rw [hnew]; exact hnow) k y hy hran
            rw [hnew] at this
            omega
      · cases j with
        | zero =>
            simp only [maint_seq, List.get?_cons_zero, Option.some.injEq] at hran
            exact absurd hran hdue
        | succ k =>
            simp only [List.get?_cons_succ] at hy
            simp only [maint_seq, List.get?_cons_succ] at hran
            have hskip : maintenance c stat { s with now := now } = ({ s with now := now }, []) := by
              simp [maintenance, hdue]
            rw [hskip] at hran
            exact ih { s with now := now } hrest hlast k y hy hran

/-- Where the debounce does hold: if no clock reading is 0, two
iterations in which the maintenance block runs have readings more than
one second apart. -/
theorem debounce_nonzero (c : Consts) (rs : List (Int × (String → Option Int))) :
    ∀ s : MainState, (∀ x ∈ rs, x.1 ≠ 0) →
      ∀ (i j : Nat) (x y : Int × (String → Option Int)), i < j →
        rs.get? i = some x → rs.get? j = some y →
        (maint_seq c rs s).get? i = some true → (maint_seq c rs s).get? j = some true →
        x.1 + 1 < y.1 := by
  induction rs with
  | nil => intro s _ i j x y _ hx; simp at hx
  | cons r rest ih =>
      intro s hnz i j x y hij hx hy hri hrj
      obtain ⟨now, stat⟩ := r
      have hnow : now ≠ 0 := hnz (now, stat) (List.mem_cons_self _ _)
      have hrest : ∀ z ∈ rest, z.1 ≠ 0 := fun z hz => hnz z (List.mem_cons_of_mem _ hz)
      cases j with
      | zero => omega
      | succ k =>
          simp only [List.get?_cons_succ] at hy
          simp only [maint_seq, List.get?_cons_succ] at hrj
          cases i with
          | zero =>
              simp only [List.get?_cons_zero, Option.some.injEq] at hx
              simp only [maint_seq, List.get?_cons_zero, Option.some.injEq] at hri
              have hnew : (maintenance c stat { s with now := now }).1.last = now :=
                maintenance_last c stat _ hri
              have := maint_after_run c rest _ hrest (by rw [hnew]; exact hnow) k y hy hrj
              rw [hnew] at this
              rw [← hx]; exact this
          | succ i2 =>
              simp only [List.get?_cons_succ] at hx
              simp only [maint_seq, List.get?_cons_succ] at hri
              exact ih _ hrest i2 k x y (by omega) hx hy hri hrj

/-! ### The count of live workers -/

theorem sup_step_count (c : Consts) (a : SupAct) (w w1 : Sup)
    (hf : ∀ g f, a = .conn g f → 0 ≤ f)
    (h : sup_step c a w = some w1) (hinv : w.s.num_kids = w.workers) :
    w1.s.num_kids = w1.workers := by
  cases a with
  | conn g f =>
      have hf0 : 0 ≤ f := hf g f rfl
      simp only [sup_step, tcp_connection] at h
      split_ifs at h with h1 h2 h3 <;>
        simp only [Option.some.injEq, reduceCtorEq] at h <;> subst h
      · simpa [created] using hinv
      · have hpos : f > 0 := by
          have := h2.2
          omega
        simp only [created, hpos, if_true]
        show w.s.num_kids + 1 = ((w.workers + (1 + 0) : Nat) : Int)
        rw [hinv]; push_cast; ring
      · simpa [created] using hinv
  | sigchld k =>
      simp only [sup_step, sig_handler] at h
      split_ifs at h with hk
      simp only [Option.some.injEq] at h
      subst h
      show w.s.num_kids - (k : Int) = ((w.workers - k : Nat) : Int)
      rw [hinv]; omega

/-- Where the count is right: as long as no `fork()` fails, `num_kids`
equals the number of workers created and not yet reaped. -/
theorem live_count_without_fork_failure (c : Consts) (acts : List SupAct) :
    ∀ w w1 : Sup, (∀ g f, SupAct.conn g f ∈ acts → 0 ≤ f) →
      w.s.num_kids = w.workers → sup_run c acts w = some w1 →
      w1.s.num_kids = w1.workers := by
  induction acts with
  | nil =>
      intro w w1 _ hinv h
      simp only [sup_run, Option.some.injEq] at h
      subst h; exact hinv
  | cons a rest ih =>
      intro w w1 hf hinv h
      simp only [sup_run] at h
      cases hstep : sup_step c a w with
      | none => rw [hstep] at h; simp at h
      | some w2 =>
          rw [hstep] at h
          refine ih w2 w1 (fun g f hm => hf g f (List.mem_cons_of_mem _ hm)) ?_ h
          exact sup_step_count c a w w2
            (fun g f ha => hf g f (by rw [ha]; exact List.mem_cons_self _ _)) hstep hinv

/-! ### The drain inside the loop -/

theorem poll_resolv_sigflags (c : Consts) (stat : String → Option Int) (s : MainState) :
    sigflags (poll_resolv c stat s).1 = sigflags s := by
  unfold poll_resolv
  simp only
  split
  · split_ifs <;> rfl
  · rfl

theorem maintenance_sigflags (c : Consts) (stat : String → Option Int) (s : MainState) :
    sigflags (maintenance c stat s).1 = sigflags s := by
  unfold maintenance
  by_cases hdue : maintenance_due s = true
  · rw [if_pos hdue]
    by_cases ho : hasOpt s.options c.OPT_NO_POLL = true
    · simp only [ho, not_true_eq_false, if_false]
      rfl
    · simp only [ho, not_false_eq_true, if_true]
      exact (poll_resolv_sigflags c stat _).trans rfl
  · rw [if_neg hdue]

theorem dispatch_replies_sigflags (l : List (Option Nat)) :
    ∀ s : MainState, sigflags (dispatch_replies l s).1 = sigflags s := by
  induction l with
  | nil => intro s; rfl
  | cons r rest ih =>
      intro s
      simp only [dispatch_replies]
      exact (ih _).trans rfl

theorem tcp_connection_sigflags (c : Consts) (s s1 : MainState)
    (g : Option Mysockaddr) (f : Int) (tr : List Event)
    (h : tcp_connection c s g f = .cont s1 tr) : sigflags s1 = sigflags s := by
  simp only [tcp_connection] at h
  split_ifs at h <;> simp only [Outcome.cont.injEq, reduceCtorEq] at h <;>
    obtain ⟨h1, _⟩ := h <;> subst h1 <;> rfl

theorem dispatch_listener_sigflags (c : Consts) (l : ListenerIn) (s s1 : MainState)
    (tr : List Event) (h : dispatch_listener c l s = .cont s1 tr) :
    sigflags s1 = sigflags s := by
  unfold dispatch_listener at h
  have hudp : sigflags (match l.udp with
      | some ls => (({ s with last_server := ls } : MainState), [Event.receive_query])
      | none => (s, [])).1 = sigflags s := by
    cases l.udp <;> rfl
  simp only at h
  cases ht : l.tcp with
  | none =>
      rw [ht] at h
      simp only [Outcome.cont.injEq] at h
      rw [← h.1]; exact hudp
  | some t =>
      rw [ht] at h
      simp only at h
      by_cases hc : t.confd_ok = true
      · rw [if_pos hc] at h
        split at h
        · rename_i s2 tr2 hconn
          simp only [Outcome.cont.injEq] at h
          rw [← h.1, tcp_connection_sigflags c _ s2 _ _ tr2 hconn]
          exact hudp
        · exact Outcome.noConfusion h
      · rw [if_neg hc] at h
        simp only [Outcome.cont.injEq] at h
        rw [← h.1]; exact hudp

theorem dispatch_listeners_sigflags (c : Consts) (ls : List ListenerIn) :
    ∀ (s s1 : MainState) (tr : List Event), dispatch_listeners c ls s = .cont s1 tr →
      sigflags s1 = sigflags s := by
  induction ls with
  | nil =>
      intro s s1 tr h
      simp only [dispatch_listeners, Outcome.cont.injEq] at h
      rw [← h.1]
  | cons l rest ih =>
      intro s s1 tr h
      simp only [dispatch_listeners] at h
      split at h
      · rename_i s2 tr2 h2
        split at h
        · rename_i s3 tr3 h3
          simp only [Outcome.cont.injEq] at h
          rw [← h.1, ih s2 s3 tr3 h3]
          exact dispatch_listener_sigflags c l s s2 tr2 h2
        · exact Outcome.noConfusion h
      · exact Outcome.noConfusion h

theorem dispatch_sigflags (c : Consts) (rset : Ready) (s s1 : MainState) (tr : List Event)
    (h : dispatch c rset s = .cont s1 tr) : sigflags s1 = sigflags s := by
  simp only [dispatch] at h
  split at h
  · rename_i s2 tr2 h2
    simp only [Outcome.cont.injEq] at h
    rw [← h.1, dispatch_listeners_sigflags c _ _ s2 tr2 h2]
    exact dispatch_replies_sigflags _ s
  · exact Outcome.noConfusion h

theorem delivered_same (sig : Signal) (k : Nat) (rest : List (Signal × Nat)) :
    delivered sig ((sig, k) :: rest) = true := by
  simp [delivered]

theorem delivered_other (sig x : Signal) (k : Nat) (rest : List (Signal × Nat))
    (h : x ≠ sig) : delivered sig ((x, k) :: rest) = delivered sig rest := by
  simp [delivered, h]

theorem deliver_sigflags (sigs : List (Signal × Nat)) :
    ∀ (s s1 : MainState) (tr : List Event), deliver sigs s = .cont s1 tr →
      s1.sigterm = (if delivered .SIGTERM sigs then 1 else s.sigterm) ∧
      s1.sighup = (if delivered .SIGHUP sigs then 1 else s.sighup) ∧
      s1.sigusr1 = (if delivered .SIGUSR1 sigs then 1 else s.sigusr1) ∧
      s1.sigalarm = (if delivered .SIGALRM sigs then 1 else s.sigalarm) := by
  induction sigs with
  | nil =>
      intro s s1 tr h
      simp only [deliver, Outcome.cont.injEq] at h
      rw [← h.1]
      simp [delivered]
  | cons x rest ih =>
      intro s s1 tr h
      obtain ⟨sig, k⟩ := x
      cases sig with
      | SIGTERM =>
          simp only [deliver, sig_handler] at h
          obtain ⟨h1, h2, h3, h4⟩ := ih _ s1 tr h
          refine ⟨?_, ?_, ?_, ?_⟩
          · rw [h1, delivered_same]; simp
          · rw [h2, delivered_other _ _ _ _ (by decide)]
          · rw [h3, delivered_other _ _ _ _ (by decide)]
          · rw [h4, delivered_other _ _ _ _ (by decide)]
      | SIGHUP =>
          simp only [deliver, sig_handler] at h
          obtain ⟨h1, h2, h3, h4⟩ := ih _ s1 tr h
          refine ⟨?_, ?_, ?_, ?_⟩
          · rw [h1, delivered_other _ _ _ _ (by decide)]
          · rw [h2, delivered_same]; simp
          · rw [h3, delivered_other _ _ _ _ (by decide)]
          · rw [h4, delivered_other _ _ _ _ (by decide)]
      | SIGUSR1 =>
          simp only [deliver, sig_handler] at h
          obtain ⟨h1, h2, h3, h4⟩ := ih _ s1 tr h
          refine ⟨?_, ?_, ?_, ?_⟩
          · rw [h1, delivered_other _ _ _ _ (by decide)]
          · rw [h2, delivered_other _ _ _ _ (by decide)]
          · rw [h3, delivered_same]; simp
          · rw [h4, delivered_other _ _ _ _ (by decide)]
      | SIGALRM =>
          simp only [deliver, sig_handler] at h
          by_cases hc : s.in_child = 0
          · simp only [hc, ne_eq, not_true_eq_false, if_false] at h
            obtain ⟨h1, h2, h3, h4⟩ := ih _ s1 tr h
            refine ⟨?_, ?_, ?_, ?_⟩
            · rw [h1, delivered_other _ _ _ _ (by decide)]
            · rw [h2, delivered_other _ _ _ _ (by decide)]
            · rw [h3, delivered_other _ _ _ _ (by decide)]
            · rw [h4, delivered_same]; simp
          · simp only [ne_eq, hc, not_false_eq_true, if_true] at h
            exact Outcome.noConfusion h
      | SIGCHLD =>
          simp only [deliver, sig_handler] at h
          obtain ⟨h1, h2, h3, h4⟩ := ih _ s1 tr h
          refine ⟨?_, ?_, ?_, ?_⟩
          · rw [h1, delivered_other _ _ _ _ (by decide)]
          · rw [h2, delivered_other _ _ _ _ (by decide)]
          · rw [h3, delivered_other _ _ _ _ (by decide)]
          · rw [h4, delivered_other _ _ _ _ (by decide)]

theorem flag_drain_rest (c : Consts) (s : MainState) :
    (flag_drain c s).1.first_loop = s.first_loop ∧ (flag_drain c s).1.sigterm = s.sigterm := by
  have h1 : ∀ u : MainState, (drain_sighup c u).1.first_loop = u.first_loop ∧
      (drain_sighup c u).1.sigterm = u.sigterm := by
    intro u
    unfold drain_sighup
    by_cases h : u.sighup = 0
    · simp [h]
    · rw [if_pos h]
      cases hr : u.resolv with
      | nil => simp
      | cons r rest => by_cases ho : hasOpt u.options c.OPT_NO_POLL = true <;> simp [ho]
  have h2 : ∀ u : MainState, (drain_sigusr1 u).1.first_loop = u.first_loop ∧
      (drain_sigusr1 u).1.sigterm = u.sigterm := by
    intro u
    unfold drain_sigusr1
    by_cases h : u.sigusr1 = 0 <;> simp [h]
  have h3 : ∀ u : MainState, (drain_sigalarm c u).1.first_loop = u.first_loop ∧
      (drain_sigalarm c u).1.sigterm = u.sigterm := by
    intro u
    unfold drain_sigalarm
    by_cases h : u.sigalarm = 0 <;> simp [h]
  simp only [flag_drain]
  exact ⟨by rw [(h3 _).1, (h2 _).1, (h1 _).1], by rw [(h3 _).2, (h2 _).2, (h1 _).2]⟩

theorem after_drain_trace (c : Consts) (inp : IterIn) (s : MainState) :
    ∃ tail, (after_drain c inp s).trace
      = (if s.first_loop = 0 then [Event.select] else []) ++ tail := by
  unfold after_drain
  by_cases hf : s.first_loop = 0
  · simp only [hf, if_true]
    cases hd : deliver inp.signals s with
    | cont s1 tr1 =>
        simp only
        split
        · simp only [Outcome.trace, List.append_assoc]
          exact ⟨_, rfl⟩
        · simp only [Outcome.trace, List.append_assoc]
          exact ⟨_, rfl⟩
    | ended code tr1 =>
        exact ⟨tr1, by simp [Outcome.trace]⟩
  · simp only [hf, if_false]
    exact ⟨_, (List.nil_append _).symm⟩

theorem after_drain_sigflags (c : Consts) (inp : IterIn) (s s1 : MainState)
    (tr : List Event) (h : after_drain c inp s = .cont s1 tr) :
    s1.sigterm = (if s.first_loop = 0 ∧ delivered .SIGTERM inp.signals then 1 else s.sigterm) ∧
    s1.sighup = (if s.first_loop = 0 ∧ delivered .SIGHUP inp.signals then 1 else s.sighup) ∧
    s1.sigusr1 = (if s.first_loop = 0 ∧ delivered .SIGUSR1 inp.signals then 1 else s.sigusr1) ∧
    s1.sigalarm
      = (if s.first_loop = 0 ∧ delivered .SIGALRM inp.signals then 1 else s.sigalarm) := by
  unfold after_drain at h
  by_cases hf : s.first_loop = 0
  · simp only [hf, if_true] at h
    cases hd : deliver inp.signals s with
    | cont s2 tr2 =>
        rw [hd] at h
        simp only at h
        split at h
        · rename_i s3 tr3 hdisp
          simp only [Outcome.cont.injEq] at h
          have e1 := dispatch_sigflags c _ _ s3 tr3 hdisp
          have e2 := maintenance_sigflags c inp.stat
            { s2 with first_loop := 0, now := inp.now }
          have e3 : sigflags s1 = sigflags s2 := by
            rw [← h.1, e1, e2]; rfl
          simp only [sigflags, Prod.mk.injEq] at e3
          obtain ⟨d1, d2, d3, d4⟩ := deliver_sigflags inp.signals s s2 tr2 hd
          simp only [hf, true_and]
          exact ⟨e3.1.trans d1, e3.2.1.trans d2, e3.2.2.1.trans d3, e3.2.2.2.trans d4⟩
        · exact Outcome.noConfusion h
    | ended code tr2 =>
        rw [hd] at h
        exact Outcome.noConfusion h
  · simp only [hf, if_false] at h
    split at h
    · rename_i s3 tr3 hdisp
      simp only [Outcome.cont.injEq] at h
      have e1 := dispatch_sigflags c _ _ s3 tr3 hdisp
      have e2 := maintenance_sigflags c inp.stat
        { s with first_loop := 0, now := inp.now }
      have e3 : sigflags s1 = sigflags s := by
        rw [← h.1, e1, e2]; rfl
      simp only [sigflags, Prod.mk.injEq] at e3
      simp only [hf, false_and, if_false]
      exact e3
    · exact Outcome.noConfusion h

theorem iteration_trace (c : Consts) (inp : IterIn) (s : MainState) :
    ∃ tail, (iteration c inp s).trace
      = (flag_drain c s).2 ++ (if s.first_loop = 0 then [Event.select] else []) ++ tail := by
  obtain ⟨tail, ht⟩ := after_drain_trace c inp (flag_drain c s).1
  rw [(flag_drain_rest c s).1] at ht
  refine ⟨tail, ?_⟩
  unfold iteration
  simp only
  cases ha : after_drain c inp (flag_drain c s).1 with
  | cont s1 tr =>
      rw [ha] at ht
      simp only [Outcome.trace] at ht ⊢
      rw [ht, List.append_assoc]
  | ended code tr =>
      rw [ha] at ht
      simp only [Outcome.trace] at ht ⊢
      rw [ht, List.append_assoc]

theorem iteration_sigflags (c : Consts) (inp : IterIn) (s s1 : MainState)
    (tr : List Event) (h : iteration c inp s = .cont s1 tr) :
    s1.sigterm = (if s.first_loop = 0 ∧ delivered .SIGTERM inp.signals then 1 else s.sigterm) ∧
    s1.sighup = (if s.first_loop = 0 ∧ delivered .SIGHUP inp.signals then 1 else 0) ∧
    s1.sigusr1 = (if s.first_loop = 0 ∧ delivered .SIGUSR1 inp.signals then 1 else 0) ∧
    s1.sigalarm = (if s.first_loop = 0 ∧ delivered .SIGALRM inp.signals then 1 else 0) := by
  unfold iteration at h
  simp only at h
  cases ha : after_drain c inp (flag_drain c s).1 with
  | cont s2 tr2 =>
      rw [ha] at h
      simp only [Outcome.cont.injEq] at h
      have hfl := after_drain_sigflags c inp _ s2 tr2 ha
      rw [(flag_drain_rest c s).1, (flag_drain_rest c s).2, (flag_drain_flags c s).1,
        (flag_drain_flags c s).2.1, (flag_drain_flags c s).2.2, h.1] at hfl
      exact hfl
  | ended code tr2 =>
      rw [ha] at h
      exact Outcome.noConfusion h

theorem main_loop_trace (c : Consts) (inp : IterIn) (rest : List IterIn) (s : MainState)
    (h : s.sigterm = 0) :
    ∃ tail, (main_loop c (inp :: rest) s).trace = (iteration c inp s).trace ++ tail := by
  simp only [main_loop, h, if_true]
  cases hi : iteration c inp s with
  | cont s1 tr =>
      simp only
      cases main_loop c rest s1 <;> exact ⟨_, rfl⟩
  | ended code tr => exact ⟨[], (List.append_nil _).symm⟩

theorem main_loop_single (c : Consts) (inp : IterIn) (s s1 : MainState)
    (tr : List Event) (h0 : s.sigterm = 0) (h : main_loop c [inp] s = .waiting s1 tr) :
    iteration c inp s = .cont s1 tr := by
  simp only [main_loop, h0, if_true] at h
  cases hi : iteration c inp s with
  | cont s2 tr2 =>
      rw [hi] at h
      simp only at h
      by_cases ht : s2.sigterm = 0
      · simp only [ht, if_true, Run.waiting.injEq, List.append_nil] at h
        rw [h.1, h.2]
      · simp only [ht, if_false] at h
        exact Run.noConfusion h
  | ended code tr2 =>
      rw [hi] at h
      exact Run.noConfusion h

/-- C9 (termination priority).  With `sigterm` set at the loop head,
whatever the other flags and whatever input is pending, `main` leaves the
loop at once and returns 0; all it does on the way is log the signal, write
the lease file (HAVE_BROKEN_RTC with DHCP) and close the lease descriptor,
so no cache reload, pool rebuild, cache dump or dispatch happens.  With
`sigterm` clear the loop runs an iteration, and what the loop does begins
with the reload actions (first `cache_reload`, none of them a dump, alarm
or wait action) if `sighup` is set, then `dump_cache` if `sigusr1` is set,
then the alarm actions if `sigalarm` is set, and only then the blocking
wait (every iteration but the first).  The flags are cleared before the
wait: when the iteration is over `sighup`, `sigusr1` and `sigalarm` are 1
exactly for the signals that arrived during its wait and 0 otherwise. -/
theorem termination_priority (c : Consts) (s : MainState) :
    (s.sigterm ≠ 0 →
      (∀ inps : List IterIn, main_loop c inps s = .returned 0 (leave c s)) ∧
      ∀ e ∈ leave c s,
        e = Event.log_sigterm ∨ e = Event.lease_update_file 1 ∨ e = Event.close_leasefd) ∧
    (s.sigterm = 0 → ∀ (inp : IterIn) (rest : List IterIn),
      (∃ R tail,
        (main_loop c (inp :: rest) s).trace =
          R ++
          (if s.sigusr1 ≠ 0 then [Event.dump_cache] else []) ++
          (if s.sigalarm ≠ 0 then
            (if s.dhcp then
              [Event.lease_update_file 1] ++ (if c.HAVE_BROKEN_RTC then [Event.alarm] else [])
             else [])
           else []) ++
          (if s.first_loop = 0 then [Event.select] else []) ++ tail ∧
        (s.sighup = 0 → R = []) ∧
        (s.sighup ≠ 0 → ∃ more, R = Event.cache_reload :: more ∧
          ∀ e ∈ more, e ≠ Event.dump_cache ∧ e ≠ Event.lease_update_file 1 ∧
            e ≠ Event.alarm ∧ e ≠ Event.select)) ∧
      (∀ (s1 : MainState) (tr : List Event), iteration c inp s = .cont s1 tr →
        s1.sighup = (if s.first_loop = 0 ∧ delivered .SIGHUP inp.signals then 1 else 0) ∧
        s1.sigusr1 = (if s.first_loop = 0 ∧ delivered .SIGUSR1 inp.signals then 1 else 0) ∧
        s1.sigalarm = (if s.first_loop = 0 ∧ delivered .SIGALRM inp.signals then 1 else 0)) ∧
      (∀ (s1 : MainState) (tr : List Event), main_loop c [inp] s = .waiting s1 tr →
        s1.sighup = (if s.first_loop = 0 ∧ delivered .SIGHUP inp.signals then 1 else 0) ∧
        s1.sigusr1 = (if s.first_loop = 0 ∧ delivered .SIGUSR1 inp.signals then 1 else 0) ∧
        s1.sigalarm
          = (if s.first_loop = 0 ∧ delivered .SIGALRM inp.signals then 1 else 0))) := by
  constructor
  · intro ht
    refine ⟨?_, leave_events c s⟩
    intro inps
    cases inps with
    | nil => simp [main_loop, ht]
    | cons inp rest => simp [main_loop, ht]
  · intro h0 inp rest
    refine ⟨?_, ?_, ?_⟩
    · obtain ⟨t1, h1⟩ := main_loop_trace c inp rest s h0
      obtain ⟨t2, h2⟩ := iteration_trace c inp s
      refine ⟨(drain_sighup c s).2, t2 ++ t1, ?_, (drain_sighup_trace c s).1,
        (drain_sighup_trace c s).2⟩
      rw [h1, h2, flag_drain_trace]
      simp only [List.append_assoc]
    · intro s1 tr hi
      exact (iteration_sigflags c inp s s1 tr hi).2
    · intro s1 tr hm
      exact (iteration_sigflags c inp s s1 tr (main_loop_single c inp s s1 tr h0 hm)).2

/-- Witness for C9.  First state: termination, reload, dump and alarm all
pending and DHCP on; the loop returns 0 with only the SIGTERM log line.
Second state: the same without termination, not the first iteration, and
SIGHUP and SIGUSR1 arrive during the wait. -/
theorem termination_priority_witness :
    ({ sample_init 0 with sigterm := 1, sigusr1 := 1, sigalarm := 1, dhcp := true }
        : MainState).sigterm ≠ 0 ∧
    main_loop sample [idle_input 1000, idle_input 1001]
        { sample_init 0 with sigterm := 1, sigusr1 := 1, sigalarm := 1, dhcp := true }
      = .returned 0 [.log_sigterm] ∧
    ({ sample_init 0 with sigusr1 := 1, sigalarm := 1, dhcp := true, first_loop := 0 }
        : MainState).sigterm = 0 ∧
    (main_loop sample [signal_input 1000]
        { sample_init 0 with sigusr1 := 1, sigalarm := 1, dhcp := true, first_loop := 0 }).trace
      = [.cache_reload, .dhcp_update_configs, .lease_update_from_configs,
         .lease_update_file 0, .lease_update_dns, .dump_cache, .lease_update_file 1,
         .select, .warn_access "/etc/resolv.conf"] ∧
    (∃ R tail,
      (main_loop sample [signal_input 1000]
        { sample_init 0 with sigusr1 := 1, sigalarm := 1, dhcp := true, first_loop := 0 }).trace
        = R ++ [Event.dump_cache] ++ [Event.lease_update_file 1] ++ [Event.select] ++ tail ∧
      ((1 : Int) = 0 → R = []) ∧
      ((1 : Int) ≠ 0 → ∃ more, R = Event.cache_reload :: more ∧
        ∀ e ∈ more, e ≠ Event.dump_cache ∧ e ≠ Event.lease_update_file 1 ∧
          e ≠ Event.alarm ∧ e ≠ Event.select)) ∧
    (∀ (s1 : MainState) (tr : List Event),
      main_loop sample [signal_input 1000]
        { sample_init 0 with sigusr1 := 1, sigalarm := 1, dhcp := true, first_loop := 0 }
        = .waiting s1 tr →
      s1.sighup = 1 ∧ s1.sigusr1 = 1 ∧ s1.sigalarm = 0) :=
  ⟨by decide,
   ((termination_priority sample
      { sample_init 0 with sigterm := 1, sigusr1 := 1, sigalarm := 1, dhcp := true }).1
      (by decide)).1 [idle_input 1000, idle_input 1001],
   by decide, by decide,
   ((termination_priority sample
      { sample_init 0 with sigusr1 := 1, sigalarm := 1, dhcp := true, first_loop := 0 }).2
      (by decide) (signal_input 1000) []).1,
   ((termination_priority sample
      { sample_init 0 with sigusr1 := 1, sigalarm := 1, dhcp := true, first_loop := 0 }).2
      (by decide) (signal_input 1000) []).2.2⟩

end Dnsmasq
